import Mathlib

/-!
Verification of the spreadsheet cell/formula engine of the `rtc`
repository (`src/components/Spreadsheet.tsx`, together with the
translation service it calls).  The TypeScript code is shallowly
embedded: JavaScript strings become `String`/`List Char`, the sparse
cell record becomes a function `String → Option Cell`, exceptions
become `Option`, and the `async`/`await` translation call is modelled
by the deterministic fallback path the service takes when no Google
API key is configured (the only path that does not leave the browser).

JavaScript numbers are IEEE-754 doubles.  The claims under study only
exercise integer arithmetic, so numbers are modelled by `Int`: the
`Number(s)` coercion is modelled on optionally-signed decimal integer
literals (any other non-empty numeric syntax, e.g. `"1.5"`, is treated
like the non-numeric case and coerced to `0` by the `|| 0` guard), and
`eval`'s division is modelled only where it is exact.  These
restrictions are noted again at the definitions they concern.
-/

namespace Rtc

/-! ## Characters and decimal numerals -/

/-- Character class of the regex `[A-Z]` (used by the address regexes). -/
def isUpperCh (c : Char) : Bool := 65 ≤ c.toNat && c.toNat ≤ 90

/-- Character class of the regex `\d` (used by the address regexes). -/
def isDigitCh (c : Char) : Bool := 48 ≤ c.toNat && c.toNat ≤ 57

/-- Numeric value of a run of decimal digits, as read by `parseInt`. -/
def digitsToNat (ds : List Char) : Nat :=
  ds.foldl (fun a c => 10 * a + (c.toNat - 48)) 0

/-- Fuel-indexed decimal rendering (structural recursion so that the
kernel can evaluate concrete instances; `renderNat` supplies ample
fuel and `renderNatF_fuel` shows the fuel is irrelevant). -/
def renderNatF : Nat → Nat → List Char
  | 0, _ => []
  | f + 1, n =>
    if n < 10 then [Nat.digitChar n]
    else renderNatF f (n / 10) ++ [Nat.digitChar (n % 10)]

/-- Decimal rendering of a natural number (JavaScript `String(n)` for
naturals, and the row part of template strings like `` `${col}${row}` ``). -/
def renderNat (n : Nat) : List Char := renderNatF (n + 1) n

lemma renderNatF_fuel :
    ∀ (f : Nat) {g n : Nat}, n < f → n < g → renderNatF f n = renderNatF g n := by
  intro f
  induction f using Nat.strong_induction_on with
  | _ f ih =>
    intro g n hf hg
    obtain ⟨f', rfl⟩ : ∃ k, f = k + 1 := ⟨f - 1, by omega⟩
    obtain ⟨g', rfl⟩ : ∃ k, g = k + 1 := ⟨g - 1, by omega⟩
    by_cases h : n < 10
    · simp [renderNatF, h]
    · have hd : n / 10 < n := Nat.div_lt_self (by omega) (by omega)
      simp only [renderNatF, h, if_false]
      rw [ih f' (by omega) (show n / 10 < f' by omega)
        (show n / 10 < g' by omega)]

lemma renderNat_unfold (n : Nat) :
    renderNat n =
      if n < 10 then [Nat.digitChar n]
      else renderNat (n / 10) ++ [Nat.digitChar (n % 10)] := by
  show renderNatF (n + 1) n = _
  by_cases h : n < 10
  · simp [renderNatF, h]
  · have hd : n / 10 < n := Nat.div_lt_self (by omega) (by omega)
    simp only [renderNatF, h, if_false]
    rw [renderNatF_fuel n (show n / 10 < n from hd)
      (show n / 10 < n / 10 + 1 by omega)]
    rfl

/-- Decimal rendering of an integer (JavaScript `String(n)` on an
integer-valued number). -/
def renderInt (n : Int) : List Char :=
  if n < 0 then '-' :: renderNat n.natAbs else renderNat n.toNat

/-- String form of `renderNat`. -/
def natToString (n : Nat) : String := ⟨renderNat n⟩

/-- Test that the second list begins with the first (JavaScript
`String.prototype.startsWith` on the underlying characters). -/
def leadsWith : List Char → List Char → Bool
  | [], _ => true
  | _ :: _, [] => false
  | a :: as, b :: bs => a = b && leadsWith as bs

/-- JavaScript `s.startsWith('=')`, the formula test of `updateCell`. -/
def beginsWithEq (s : String) : Bool :=
  match s.toList with
  | '=' :: _ => true
  | _ => false

/-- First maximal run of characters satisfying `p`; models an unanchored
regex search such as `s.match(/[A-Z]+/)![0]` for a one-class pattern. -/
def firstRun (p : Char → Bool) (cs : List Char) : List Char :=
  (cs.dropWhile (fun c => !p c)).takeWhile p

/-- Whitespace characters recognised by the model of
`String.prototype.trim` (space, tab, newline, carriage return — the
whitespace actually occurring in cell inputs). -/
def isWsCh (c : Char) : Bool :=
  c.toNat = 32 || c.toNat = 9 || c.toNat = 10 || c.toNat = 13

/-- Model of JavaScript `s.trim()` on the character list. -/
def jsTrimL (cs : List Char) : List Char :=
  ((cs.dropWhile isWsCh).reverse.dropWhile isWsCh).reverse

/-- ASCII lower-casing of one character. -/
def lowerCh (c : Char) : Char :=
  if 65 ≤ c.toNat && c.toNat ≤ 90 then Char.ofNat (c.toNat + 32) else c

/-- Model of JavaScript `s.toLowerCase()` (ASCII case mapping; the
dictionary keys it is compared against are ASCII-lowercase or caseless
scripts, on which the two mappings agree). -/
def jsToLower (s : String) : String := ⟨s.toList.map lowerCh⟩

/-! ## Languages and the translation service (`TranslationService.ts`) -/

/-- The `Language` union type of the translation service. -/
inductive Language
  | en
  | km
  | ne
deriving DecidableEq, Repr

open Language

/-- The `TranslationMode` interface (identifier fields kept as data). -/
structure TranslationMode where
  id : String
  sourceLang : Language
  targetLang : Language
  autoTranslate : Bool
deriving DecidableEq, Repr

/-- The `TranslationResult` interface.  The service always fills the
`confidence` field on the fallback path, so it is not optional here.
Confidences (0, 0.7, 1.0) are modelled as rationals. -/
structure TranslationResult where
  text : String
  detectedLanguage : Language
  confidence : ℚ
deriving DecidableEq, Repr

/-- The `translationModes` array of the service. -/
def translationModes : List TranslationMode :=
  [ ⟨"auto-khmer", en, km, true⟩,
    ⟨"auto-nepali", en, ne, true⟩,
    ⟨"auto-english", km, en, true⟩,
    ⟨"manual", en, en, false⟩ ]

/-- The first translation mode, selected by the component on startup
(`translationService.getTranslationModes()[0]`, "Auto Khmer"). -/
def autoKhmerMode : TranslationMode := ⟨"auto-khmer", en, km, true⟩

/-- The "Manual" mode (no automatic translation). -/
def manualMode : TranslationMode := ⟨"manual", en, en, false⟩

/-- Character-set language detection of `detectLanguage`: Khmer block
`ក`–`៿`, Devanagari block `ऀ`–`ॿ`, ASCII letters. -/
def detectLanguage (text : String) : Language :=
  if (jsTrimL text.toList).isEmpty then en
  else if text.toList.any (fun c => 0x1780 ≤ c.toNat && c.toNat ≤ 0x17FF) then km
  else if text.toList.any (fun c => 0x0900 ≤ c.toNat && c.toNat ≤ 0x097F) then ne
  else en

/-- The static dictionary of `getBasicTranslations`, keyed by the
`detected-target` language pair. -/
def basicTranslations (d t : Language) : List (String × String) :=
  match d, t with
  | en, km =>
    [ ("hello", "សួស្តី"), ("goodbye", "លាសិនហើយ"), ("thank you", "សូមអរគុណ"),
      ("yes", "បាទ"), ("no", "ទេ"), ("name", "ឈ្មោះ"), ("date", "កាលបរិច្ឆេទ"),
      ("total", "សរុប"), ("sum", "ផលបូក"), ("average", "មធ្យម"),
      ("maximum", "អតិបរមា"), ("minimum", "អប្បបរមា"), ("save", "រក្សាទុក"),
      ("load", "ផ្ទុក"), ("export", "នាំចេញ"), ("clear", "សម្អាត"),
      ("help", "ជំនួយ") ]
  | en, ne =>
    [ ("hello", "नमस्ते"), ("goodbye", "अलविदा"), ("thank you", "धन्यवाद"),
      ("yes", "हो"), ("no", "होइन"), ("name", "नाम"), ("date", "मिति"),
      ("total", "कुल"), ("sum", "योग"), ("average", "औसत"),
      ("maximum", "अधिकतम"), ("minimum", "न्यूनतम"), ("save", "सुरक्षित गर्नुहोस्"),
      ("load", "लोड गर्नुहोस्"), ("export", "निर्यात गर्नुहोस्"), ("clear", "सफा गर्नुहोस्"),
      ("help", "सहायता") ]
  | km, en =>
    [ ("សួស្តី", "hello"), ("លាសិនហើយ", "goodbye"), ("សូមអរគុណ", "thank you"),
      ("បាទ", "yes"), ("ទេ", "no"), ("ឈ្មោះ", "name"), ("កាលបរិច្ឆេទ", "date"),
      ("សរុប", "total"), ("ផលបូក", "sum"), ("មធ្យម", "average"),
      ("អតិបរមា", "maximum"), ("អប្បបរមា", "minimum"), ("រក្សាទុក", "save"),
      ("ផ្ទុក", "load"), ("នាំចេញ", "export"), ("សម្អាត", "clear"),
      ("ជំនួយ", "help") ]
  | ne, en =>
    [ ("नमस्ते", "hello"), ("अलविदा", "goodbye"), ("धन्यवाद", "thank you"),
      ("हो", "yes"), ("होइन", "no"), ("नाम", "name"), ("मिति", "date"),
      ("कुल", "total"), ("योग", "sum"), ("औसत", "average"),
      ("अधिकतम", "maximum"), ("न्यूनतम", "minimum"), ("सुरक्षित गर्नुहोस्", "save"),
      ("लोड गर्नुहोस्", "load"), ("निर्यात गर्नुहोस्", "export"), ("सफा गर्नुहोस्", "clear"),
      ("सहायता", "help") ]
  | _, _ => []

/-- Association-list lookup, modelling JavaScript object property access
on the dictionary above (keys are distinct, so first match suffices). -/
def lookupStr : List (String × String) → String → Option String
  | [], _ => none
  | (k, v) :: rest, key => if k = key then some v else lookupStr rest key

/-- The `translateWithFallback` method. -/
def translateWithFallback (text : String) (targetLang : Language) : TranslationResult :=
  let detectedLang := detectLanguage text
  if detectedLang = targetLang then ⟨text, detectedLang, 1⟩
  else
    match lookupStr (basicTranslations detectedLang targetLang) (jsToLower text) with
    | some t => ⟨t, detectedLang, 7/10⟩
    | none => ⟨text, detectedLang, 0⟩

/-- The `translate` method as executed in the deployed configuration:
`translateWithGoogleAPI` throws immediately when
`REACT_APP_GOOGLE_TRANSLATE_API_KEY` is not configured, so `translate`
always resolves to the deterministic fallback. -/
def translate (text : String) (targetLang : Language) : TranslationResult :=
  translateWithFallback text targetLang

/-! ## The cell store -/

/-- A computed JavaScript value of the evaluator: the declared
`string | number` union, plus `undefined` (which `eval` returns on an
empty expression and which the code stores without complaint). -/
inductive JSValue
  | num (n : Int)
  | str (s : String)
  | undef
deriving DecidableEq, Repr

/-- The `Cell` interface: raw input `value`, optional `formula` (the raw
input when it begins with `=`), optional cached `computedValue`. -/
structure Cell where
  value : String
  formula : Option String := none
  computedValue : Option JSValue := none
deriving DecidableEq, Repr

/-- The sparse cell store `Record<string, Cell>`, as a lookup function. -/
def Grid : Type := String → Option Cell

/-- The initial `useState` value `{}`. -/
def emptyGrid : Grid := fun _ => none

/-- JavaScript truthiness of the optional `formula` string field
(`undefined` and the empty string are falsy). -/
def truthyOptStr : Option String → Bool
  | none => false
  | some s => !s.toList.isEmpty

/-- Rendering of a stored `computedValue` by
`cell.computedValue?.toString() || ''`. -/
def displayComputed : Option JSValue → String
  | none => ""
  | some (JSValue.num n) => ⟨renderInt n⟩
  | some (JSValue.str s) => s
  | some JSValue.undef => ""

/-- The `getCellValue` callback: absent cells display as `""`; a cell
with a (truthy) formula displays its cached computed value; otherwise
the raw value is displayed. -/
def getCellValue (cells : Grid) (cellKey : String) : String :=
  match cells cellKey with
  | none => ""
  | some cell =>
    if truthyOptStr cell.formula then displayComputed cell.computedValue
    else cell.value

/-! ## Numeric coercion (`Number(val) || 0`) -/

/-- Parse a non-empty all-digit string. -/
def parseDigitsAll (ds : List Char) : Option Nat :=
  if ds ≠ [] ∧ ds.all isDigitCh then some (digitsToNat ds) else none

/-- Parse an optionally-signed decimal integer literal. -/
def parseIntStr : List Char → Option Int
  | '-' :: ds => (parseDigitsAll ds).map (fun n => -(n : Int))
  | '+' :: ds => (parseDigitsAll ds).map (fun n => (n : Int))
  | ds => (parseDigitsAll ds).map (fun n => (n : Int))

/-- The coercion `Number(val) || 0` of the evaluator: whitespace-only
strings coerce to `0`, integer literals to their value, and everything
else (non-numeric text, and numeric syntax outside the modelled integer
fragment) to `0` via the `|| 0` guard on `NaN`. -/
def jsNumOr0 (s : String) : Int :=
  let t := jsTrimL s.toList
  if t.isEmpty then 0
  else
    match parseIntStr t with
    | some n => n
    | none => 0

/-! ## Address matching (the regexes `[A-Z]+\d+` and `SUM\(...\)`) -/

/-- Match the regex `[A-Z]+\d+` at the head of the input: a maximal
non-empty run of uppercase letters followed by a maximal non-empty run
of digits (backtracking can never produce any other match of this
pattern).  Returns the matched characters and the rest of the input. -/
def matchCellRef (cs : List Char) : Option (List Char × List Char) :=
  let ls := cs.takeWhile isUpperCh
  if ls.isEmpty then none
  else
    let afterLs := cs.drop ls.length
    let ds := afterLs.takeWhile isDigitCh
    if ds.isEmpty then none
    else some (ls ++ ds, afterLs.drop ds.length)

lemma length_dropWhile_le (p : Char → Bool) (l : List Char) :
    (l.dropWhile p).length ≤ l.length := by
  induction l with
  | nil => simp [List.dropWhile]
  | cons c cs ih =>
    by_cases h : p c
    · simp [List.dropWhile, h]; omega
    · simp [List.dropWhile, h]

lemma length_takeWhile_le (p : Char → Bool) (l : List Char) :
    (l.takeWhile p).length ≤ l.length := by
  induction l with
  | nil => simp [List.takeWhile]
  | cons c cs ih =>
    by_cases h : p c
    · simp [List.takeWhile, h]; omega
    · simp [List.takeWhile, h]

lemma matchCellRef_rest_lt {cs m rest : List Char}
    (h : matchCellRef cs = some (m, rest)) : rest.length < cs.length := by
  unfold matchCellRef at h
  by_cases hl : (cs.takeWhile isUpperCh).isEmpty
  · simp [hl] at h
  · by_cases hd :
      (((cs.drop (cs.takeWhile isUpperCh).length)).takeWhile isDigitCh).isEmpty
    · simp [hl, hd] at h
    · simp only [hl, hd, Bool.false_eq_true, if_false, Option.some.injEq,
        Prod.mk.injEq] at h
      have hrest := h.2.symm
      have h1 := length_takeWhile_le isUpperCh cs
      have h2 := length_takeWhile_le isDigitCh
        (cs.drop (cs.takeWhile isUpperCh).length)
      have h5 : (cs.takeWhile isUpperCh).length ≠ 0 := by
        intro hz
        exact hl (List.isEmpty_iff.mpr (List.eq_nil_of_length_eq_zero hz))
      have h6 :
          (((cs.drop (cs.takeWhile isUpperCh).length)).takeWhile
            isDigitCh).length ≠ 0 := by
        intro hz
        exact hd (List.isEmpty_iff.mpr (List.eq_nil_of_length_eq_zero hz))
      subst hrest
      simp only [List.length_drop] at *
      omega

/-- Fuel-indexed body of the global replace (structural recursion for
kernel evaluability; a character is consumed at every step, so fuel
equal to the input length suffices and is irrelevant beyond that). -/
def substRefsF (g : Grid) : Nat → List Char → List Char
  | 0, _ => []
  | _ + 1, [] => []
  | f + 1, c :: cs =>
    match matchCellRef (c :: cs) with
    | some (m, rest) =>
      renderInt (jsNumOr0 (getCellValue g ⟨m⟩)) ++ substRefsF g f rest
    | none => c :: substRefsF g f cs

/-- One global-replace pass of
`expression.replace(/[A-Z]+\d+/g, m => String(Number(getCellValue(m)) || 0))`:
the regex engine tries the pattern at each position from the left; a
match is copied out replaced, a non-matching head character is copied
verbatim. -/
def substRefs (g : Grid) (cs : List Char) : List Char :=
  substRefsF g cs.length cs

lemma substRefsF_nil (g : Grid) : ∀ f, substRefsF g f [] = [] := by
  intro f
  cases f <;> rfl

lemma substRefsF_fuel (g : Grid) :
    ∀ (f : Nat) {f' : Nat} (cs : List Char), cs.length ≤ f → cs.length ≤ f' →
      substRefsF g f cs = substRefsF g f' cs := by
  intro f
  induction f using Nat.strong_induction_on with
  | _ f ih =>
    intro f' cs hf hf'
    cases cs with
    | nil => rw [substRefsF_nil, substRefsF_nil]
    | cons c cs =>
      obtain ⟨k, rfl⟩ : ∃ k, f = k + 1 := ⟨f - 1, by simp at hf; omega⟩
      obtain ⟨k', rfl⟩ : ∃ k, f' = k + 1 := ⟨f' - 1, by simp at hf'; omega⟩
      simp only [List.length_cons] at hf hf'
      show (match matchCellRef (c :: cs) with
        | some (m, rest) =>
          renderInt (jsNumOr0 (getCellValue g ⟨m⟩)) ++ substRefsF g k rest
        | none => c :: substRefsF g k cs) =
        (match matchCellRef (c :: cs) with
        | some (m, rest) =>
          renderInt (jsNumOr0 (getCellValue g ⟨m⟩)) ++ substRefsF g k' rest
        | none => c :: substRefsF g k' cs)
      cases h : matchCellRef (c :: cs) with
      | some p =>
        obtain ⟨m, rest⟩ := p
        have hlt := matchCellRef_rest_lt h
        simp only [List.length_cons] at hlt
        dsimp only
        rw [ih k (by omega) rest (show rest.length ≤ k by omega)
          (show rest.length ≤ k' by omega)]
      | none =>
        dsimp only
        rw [ih k (by omega) cs (show cs.length ≤ k by omega)
          (show cs.length ≤ k' by omega)]

/-- The defining equation of `substRefs` on a non-empty input. -/
lemma substRefs_cons (g : Grid) (c : Char) (cs : List Char) :
    substRefs g (c :: cs) =
      match matchCellRef (c :: cs) with
      | some (m, rest) =>
        renderInt (jsNumOr0 (getCellValue g ⟨m⟩)) ++ substRefs g rest
      | none => c :: substRefs g cs := by
  show (match matchCellRef (c :: cs) with
    | some (m, rest) =>
      renderInt (jsNumOr0 (getCellValue g ⟨m⟩)) ++ substRefsF g cs.length rest
    | none => c :: substRefsF g cs.length cs) = _
  cases h : matchCellRef (c :: cs) with
  | some p =>
    obtain ⟨m, rest⟩ := p
    have hlt := matchCellRef_rest_lt h
    simp only [List.length_cons] at hlt
    dsimp only
    rw [substRefsF_fuel g cs.length rest
      (show rest.length ≤ cs.length by omega)
      (show rest.length ≤ rest.length by omega)]
    rfl
  | none =>
    dsimp only
    rfl

/-- Drop an exact literal from the head of the input, or fail. -/
def dropLit : List Char → List Char → Option (List Char)
  | [], cs => some cs
  | _ :: _, [] => none
  | l :: ls, c :: cs => if c = l then dropLit ls cs else none

/-- Match the regex `SUM\(([A-Z]+\d+):([A-Z]+\d+)\)` at the head of the
input, returning the two captured addresses. -/
def matchSumAt (cs : List Char) : Option (List Char × List Char) :=
  match dropLit ['S', 'U', 'M', '('] cs with
  | none => none
  | some r1 =>
    match matchCellRef r1 with
    | none => none
    | some (a1, r2) =>
      match r2 with
      | ':' :: r3 =>
        match matchCellRef r3 with
        | none => none
        | some (a2, r4) =>
          match r4 with
          | ')' :: _ => some (a1, a2)
          | _ => none
      | _ => none

/-- Unanchored search for `SUM\(([A-Z]+\d+):([A-Z]+\d+)\)` (JavaScript
`expression.match(...)`): try each start position from the left. -/
def findSum : List Char → Option (List Char × List Char)
  | [] => none
  | c :: cs =>
    match matchSumAt (c :: cs) with
    | some p => some p
    | none => findSum cs

/-! ## Range reading (`getRangeValues`) -/

/-- Column letter `String.fromCharCode(65 + col)`. -/
def colChar (col : Nat) : Char := Char.ofNat (65 + col)

/-- The template string `` `${String.fromCharCode(65 + col)}${row}` ``
that addresses a cell. -/
def cellName (col row : Nat) : String := ⟨[colChar col] ++ renderNat row⟩

/-- Extraction of `(columnIndex, rowIndex)` from an address string:
`s.match(/[A-Z]+/)![0].charCodeAt(0) - 65` and
`parseInt(s.match(/\d+/)![0])`.  The callers only pass strings captured
by `[A-Z]+\d+`, on which both matches are non-empty; an empty match is
given the harmless value `0` here where JavaScript would throw inside
the evaluator's catch-all. -/
def colRowOf (s : List Char) : Nat × Nat :=
  let letters := firstRun isUpperCh s
  let digits := firstRun isDigitCh s
  (match letters with
   | c :: _ => c.toNat - 65
   | [] => 0,
   digitsToNat digits)

/-- The `getRangeValues` callback: display values of the rectangular
span, row-major, with both loops running from the start corner to the
end corner inclusive (empty when a coordinate is reversed). -/
def getRangeValues (g : Grid) (start stop : List Char) : List String :=
  let sp := colRowOf start
  let ep := colRowOf stop
  (List.range' sp.2 (ep.2 + 1 - sp.2)).flatMap fun row =>
    (List.range' sp.1 (ep.1 + 1 - sp.1)).map fun col =>
      getCellValue g (cellName col row)

/-- The `values.reduce((sum, val) => sum + (Number(val) || 0), 0)` fold. -/
def sumValues (vs : List String) : Int :=
  vs.foldl (fun s v => s + jsNumOr0 v) 0

/-! ## The arithmetic fragment of `eval` -/

/-- Tokens of the arithmetic expressions reaching `eval` after cell
references have been substituted away. -/
inductive Tok
  | num (n : Nat)
  | lparen
  | rparen
  | plus
  | minus
  | star
  | slash
deriving DecidableEq, Repr

/-- Fuel-indexed body of the lexer (structural recursion for kernel
evaluability; every step consumes at least one character). -/
def tokenizeF : Nat → List Char → Option (List Tok)
  | 0, _ => none
  | _ + 1, [] => some []
  | f + 1, c :: cs =>
    if isWsCh c then tokenizeF f cs
    else if isDigitCh c then
      let ds := (c :: cs).takeWhile isDigitCh
      let rest := (c :: cs).dropWhile isDigitCh
      (tokenizeF f rest).map (Tok.num (digitsToNat ds) :: ·)
    else
      match c with
      | '+' => (tokenizeF f cs).map (Tok.plus :: ·)
      | '-' => (tokenizeF f cs).map (Tok.minus :: ·)
      | '*' => (tokenizeF f cs).map (Tok.star :: ·)
      | '/' => (tokenizeF f cs).map (Tok.slash :: ·)
      | '(' => (tokenizeF f cs).map (Tok.lparen :: ·)
      | ')' => (tokenizeF f cs).map (Tok.rparen :: ·)
      | _ => none

/-- Lexer for the arithmetic fragment: decimal integer literals,
`+ - * / ( )` and whitespace (the whitespace test is the `isWsCh`
class).  Any other character makes `eval` throw
(`SyntaxError`/`ReferenceError`), modelled by `none`. -/
def tokenize (cs : List Char) : Option (List Tok) :=
  tokenizeF (cs.length + 1) cs

lemma tokenizeF_fuel :
    ∀ (f : Nat) {g : Nat} (cs : List Char), cs.length < f → cs.length < g →
      tokenizeF f cs = tokenizeF g cs := by
  intro f
  induction f using Nat.strong_induction_on with
  | _ f ih =>
    intro g cs hf hg
    obtain ⟨k, rfl⟩ : ∃ k, f = k + 1 := ⟨f - 1, by omega⟩
    obtain ⟨k2, rfl⟩ : ∃ k, g = k + 1 := ⟨g - 1, by omega⟩
    cases cs with
    | nil => rfl
    | cons c cs =>
      simp only [List.length_cons] at hf hg
      show tokenizeF (k + 1) (c :: cs) = tokenizeF (k2 + 1) (c :: cs)
      by_cases hws : isWsCh c
      · simp only [tokenizeF, hws, if_true]
        exact ih k (by omega) cs (by omega) (by omega)
      · by_cases hd : isDigitCh c
        · simp only [tokenizeF, hws, hd, Bool.false_eq_true, if_false, if_true]
          have hdrop : ((c :: cs).dropWhile isDigitCh).length ≤ cs.length := by
            rw [List.dropWhile_cons]
            simp only [hd, if_true]
            exact length_dropWhile_le _ _
          rw [ih k (by omega) ((c :: cs).dropWhile isDigitCh)
            (show ((c :: cs).dropWhile isDigitCh).length < k by omega)
            (show ((c :: cs).dropWhile isDigitCh).length < k2 by omega)]
        · simp only [tokenizeF, hws, hd, Bool.false_eq_true, if_false]
          rw [ih k (by omega) cs (show cs.length < k by omega)
            (show cs.length < k2 by omega)]

/-- The defining equation of `tokenize` on a non-empty input. -/
lemma tokenize_cons (c : Char) (cs : List Char) :
    tokenize (c :: cs) =
      if isWsCh c then tokenize cs
      else if isDigitCh c then
        (tokenize ((c :: cs).dropWhile isDigitCh)).map
          (Tok.num (digitsToNat ((c :: cs).takeWhile isDigitCh)) :: ·)
      else
        match c with
        | '+' => (tokenize cs).map (Tok.plus :: ·)
        | '-' => (tokenize cs).map (Tok.minus :: ·)
        | '*' => (tokenize cs).map (Tok.star :: ·)
        | '/' => (tokenize cs).map (Tok.slash :: ·)
        | '(' => (tokenize cs).map (Tok.lparen :: ·)
        | ')' => (tokenize cs).map (Tok.rparen :: ·)
        | _ => none := by
  show tokenizeF ((c :: cs).length + 1) (c :: cs) = _
  by_cases hws : isWsCh c
  · simp only [tokenizeF, List.length_cons, hws, if_true]
    exact tokenizeF_fuel (cs.length + 1) cs (by omega) (by omega)
  · by_cases hd : isDigitCh c
    · simp only [tokenizeF, List.length_cons, hws, hd, Bool.false_eq_true,
        if_false, if_true]
      have hdrop : ((c :: cs).dropWhile isDigitCh).length ≤ cs.length := by
        rw [List.dropWhile_cons]
        simp only [hd, if_true]
        exact length_dropWhile_le _ _
      rw [tokenizeF_fuel (cs.length + 1) ((c :: cs).dropWhile isDigitCh)
        (show ((c :: cs).dropWhile isDigitCh).length < cs.length + 1 by omega)
        (show ((c :: cs).dropWhile isDigitCh).length <
          ((c :: cs).dropWhile isDigitCh).length + 1 by omega)]
      rfl
    · simp only [tokenizeF, List.length_cons, hws, hd, Bool.false_eq_true,
        if_false]
      rfl

mutual

/-- Expression level of the arithmetic grammar (`+`/`-`, left
associative), fuel-indexed. -/
def pExpr : Nat → List Tok → Option (Int × List Tok)
  | 0, _ => none
  | f + 1, ts =>
    match pTerm f ts with
    | some (v, r) => pExprLoop f v r
    | none => none

/-- Left-recursion loop for `+`/`-`. -/
def pExprLoop : Nat → Int → List Tok → Option (Int × List Tok)
  | 0, _, _ => none
  | f + 1, acc, Tok.plus :: ts =>
    match pTerm f ts with
    | some (v, r) => pExprLoop f (acc + v) r
    | none => none
  | f + 1, acc, Tok.minus :: ts =>
    match pTerm f ts with
    | some (v, r) => pExprLoop f (acc - v) r
    | none => none
  | _ + 1, acc, ts => some (acc, ts)

/-- Term level of the arithmetic grammar (`*`/`/`, left associative). -/
def pTerm : Nat → List Tok → Option (Int × List Tok)
  | 0, _ => none
  | f + 1, ts =>
    match pFactor f ts with
    | some (v, r) => pTermLoop f v r
    | none => none

/-- Left-recursion loop for `*`/`/`.  JavaScript division is float
division; it is modelled only where it is exact (division by zero,
which JavaScript turns into `Infinity`, and inexact quotients fall
outside the modelled integer fragment and are mapped to `none`). -/
def pTermLoop : Nat → Int → List Tok → Option (Int × List Tok)
  | 0, _, _ => none
  | f + 1, acc, Tok.star :: ts =>
    match pFactor f ts with
    | some (v, r) => pTermLoop f (acc * v) r
    | none => none
  | f + 1, acc, Tok.slash :: ts =>
    match pFactor f ts with
    | some (v, r) =>
      if v ≠ 0 ∧ v ∣ acc then pTermLoop f (acc / v) r else none
    | none => none
  | _ + 1, acc, ts => some (acc, ts)

/-- Factor level: numeric literal, unary `-`/`+`, parenthesised
expression. -/
def pFactor : Nat → List Tok → Option (Int × List Tok)
  | 0, _ => none
  | f + 1, Tok.num n :: ts => some ((n : Int), ts)
  | f + 1, Tok.minus :: ts =>
    match pFactor f ts with
    | some (v, r) => some (-v, r)
    | none => none
  | f + 1, Tok.plus :: ts => pFactor f ts
  | f + 1, Tok.lparen :: ts =>
    match pExpr f ts with
    | some (v, Tok.rparen :: r) => some (v, r)
    | _ => none
  | _ + 1, _ => none

end

/-- Fuel that always suffices for the recursive-descent parser (every
level either consumes a token or moves one level down). -/
def pFuel (ts : List Tok) : Nat := 10 * ts.length + 10

/-- The behaviour of `eval(cleanExpression)` on the modelled fragment:
an empty or all-whitespace program yields `undefined`; otherwise the
characters must lex and parse as a complete arithmetic expression, any
failure being a thrown exception (`none`). -/
def jsEval (cs : List Char) : Option JSValue :=
  match tokenize cs with
  | none => none
  | some [] => some JSValue.undef
  | some ts =>
    match pExpr (pFuel ts) ts with
    | some (v, []) => some (JSValue.num v)
    | _ => none

/-! ## The formula evaluator (`evaluateFormula`) -/

/-- Body of the `try` block of `evaluateFormula`: strip the `=`, take
the `SUM(range)` fast path when the prefix test and the range regex
both succeed, otherwise substitute cell references and `eval` the
result.  `none` is a thrown exception. -/
def evaluateFormulaCore (g : Grid) (formula : String) : Option JSValue :=
  let expression := formula.toList.drop 1
  if leadsWith ['S', 'U', 'M', '('] expression then
    match findSum expression with
    | some (start, stop) =>
      some (JSValue.num (sumValues (getRangeValues g start stop)))
    | none => jsEval (substRefs g expression)
  else jsEval (substRefs g expression)

/-- The `evaluateFormula` callback: the surrounding `catch` turns any
exception into the error marker `'#ERROR!'`. -/
def evaluateFormula (g : Grid) (formula : String) : JSValue :=
  match evaluateFormulaCore g formula with
  | some v => v
  | none => JSValue.str "#ERROR!"

/-! ## Committing an edit (`updateCell`) -/

/-- The `updateCell` callback.  A formula input (leading `=`) is stored
with its evaluation against the current cells; a literal input is first
offered to the translation service when the active mode auto-translates
and the trimmed input is truthy, and the translated text replaces the
input only when the returned confidence is truthy and above `0.5`.
The spread `{ ...cells, [cellKey]: newCell }` updates exactly one key. -/
def updateCell (mode : TranslationMode) (g : Grid) (cellKey : String)
    (value : String) : Grid :=
  let newCell : Cell :=
    if beginsWithEq value then
      { value := value, formula := some value,
        computedValue := some (evaluateFormula g value) }
    else
      let finalValue :=
        if mode.autoTranslate ∧ ¬(jsTrimL value.toList).isEmpty then
          let translation := translate value mode.targetLang
          if translation.confidence ≠ 0 ∧ translation.confidence > 1/2 then
            translation.text
          else value
        else value
      { value := finalValue }
  fun k => if k = cellKey then some newCell else g k

/-! ## Basic lemmas about numerals and character classes -/

lemma digitChar_toNat {d : Nat} (h : d < 10) :
    (Nat.digitChar d).toNat = 48 + d := by
  interval_cases d <;> decide

lemma isDigitCh_digitChar {d : Nat} (h : d < 10) :
    isDigitCh (Nat.digitChar d) = true := by
  interval_cases d <;> decide

lemma not_isUpperCh_of_isDigitCh {c : Char} (h : isDigitCh c = true) :
    isUpperCh c = false := by
  simp only [isDigitCh, Bool.and_eq_true, decide_eq_true_eq] at h
  have : ¬(65 ≤ c.toNat) := by omega
  simp [isUpperCh, this]

lemma renderNat_ne_nil (n : Nat) : renderNat n ≠ [] := by
  rw [renderNat_unfold]
  split
  · simp
  · simp

lemma renderNat_all_digits (n : Nat) :
    ∀ c ∈ renderNat n, isDigitCh c = true := by
  induction n using Nat.strong_induction_on with
  | _ n ih =>
    rw [renderNat_unfold]
    split
    · intro c hc
      simp only [List.mem_singleton] at hc
      subst hc
      exact isDigitCh_digitChar (by omega)
    · intro c hc
      rw [List.mem_append] at hc
      rcases hc with hc | hc
      · exact ih (n / 10) (Nat.div_lt_self (by omega) (by omega)) c hc
      · simp only [List.mem_singleton] at hc
        subst hc
        exact isDigitCh_digitChar (Nat.mod_lt _ (by omega))

lemma digitsToNat_append_digit (xs : List Char) (c : Char) :
    digitsToNat (xs ++ [c]) = 10 * digitsToNat xs + (c.toNat - 48) := by
  simp [digitsToNat, List.foldl_append]

lemma digitsToNat_renderNat (n : Nat) : digitsToNat (renderNat n) = n := by
  induction n using Nat.strong_induction_on with
  | _ n ih =>
    rw [renderNat_unfold]
    split
    · next h =>
      simp [digitsToNat, digitChar_toNat h]
    · next h =>
      rw [digitsToNat_append_digit,
        ih (n / 10) (Nat.div_lt_self (by omega) (by omega)),
        digitChar_toNat (Nat.mod_lt _ (by omega))]
      omega

lemma renderNat_head_digit (n : Nat) :
    ∃ c cs, renderNat n = c :: cs ∧ isDigitCh c = true := by
  have hne := renderNat_ne_nil n
  have hall := renderNat_all_digits n
  cases h : renderNat n with
  | nil => exact absurd h hne
  | cons c cs =>
    exact ⟨c, cs, rfl, hall c (by rw [h]; exact List.mem_cons_self c cs)⟩

lemma takeWhile_append_of_all {p : Char → Bool} {xs : List Char}
    (h : ∀ c ∈ xs, p c = true) (ys : List Char) :
    (xs ++ ys).takeWhile p = xs ++ ys.takeWhile p := by
  induction xs with
  | nil => simp
  | cons x xt ih =>
    have hx := h x (List.mem_cons_self x xt)
    simp only [List.cons_append, List.takeWhile_cons, hx, if_true]
    rw [ih (fun c hc => h c (List.mem_cons_of_mem x hc))]

lemma dropWhile_append_of_all {p : Char → Bool} {xs : List Char}
    (h : ∀ c ∈ xs, p c = true) (ys : List Char) :
    (xs ++ ys).dropWhile p = ys.dropWhile p := by
  induction xs with
  | nil => simp
  | cons x xt ih =>
    have hx := h x (List.mem_cons_self x xt)
    simp only [List.cons_append, List.dropWhile_cons, hx, if_true]
    exact ih (fun c hc => h c (List.mem_cons_of_mem x hc))

lemma takeWhile_eq_nil_of_head {p : Char → Bool} {c : Char}
    (h : p c = false) (cs : List Char) : (c :: cs).takeWhile p = [] := by
  simp [List.takeWhile_cons, h]

lemma dropWhile_cons_of_head {p : Char → Bool} {c : Char}
    (h : p c = false) (cs : List Char) : (c :: cs).dropWhile p = c :: cs := by
  simp [List.dropWhile_cons, h]

/-! ### Column characters -/

lemma colChar_toNat {c : Nat} (h : c < 26) : (colChar c).toNat = 65 + c := by
  interval_cases c <;> decide

lemma isUpperCh_colChar {c : Nat} (h : c < 26) :
    isUpperCh (colChar c) = true := by
  interval_cases c <;> decide

lemma not_isDigitCh_colChar {c : Nat} (h : c < 26) :
    isDigitCh (colChar c) = false := by
  interval_cases c <;> decide

/-- Digit runs with a non-digit (or empty) continuation: the address
digit-run machinery reads back exactly a rendered number. -/
lemma takeWhile_digits_renderNat (r : Nat) {rest : List Char}
    (hrest : ∀ c, rest.head? = some c → isDigitCh c = false) :
    (renderNat r ++ rest).takeWhile isDigitCh = renderNat r := by
  rw [takeWhile_append_of_all (renderNat_all_digits r)]
  cases rest with
  | nil => simp
  | cons c cs =>
    rw [takeWhile_eq_nil_of_head (hrest c rfl)]
    simp

lemma dropWhile_digits_renderNat (r : Nat) {rest : List Char}
    (hrest : ∀ c, rest.head? = some c → isDigitCh c = false) :
    (renderNat r ++ rest).dropWhile isDigitCh = rest := by
  rw [dropWhile_append_of_all (renderNat_all_digits r)]
  cases rest with
  | nil => simp
  | cons c cs => exact dropWhile_cons_of_head (hrest c rfl) cs

/-- The reference matcher on a rendered single-letter address followed
by a continuation that does not extend the digit run. -/
lemma matchCellRef_rendered {c r : Nat} (hc : c < 26) {rest : List Char}
    (hrest : ∀ ch, rest.head? = some ch → isDigitCh ch = false) :
    matchCellRef (colChar c :: (renderNat r ++ rest)) =
      some (colChar c :: renderNat r, rest) := by
  obtain ⟨d, ds, hrend, hdig⟩ := renderNat_head_digit r
  unfold matchCellRef
  have h1 : (colChar c :: (renderNat r ++ rest)).takeWhile isUpperCh =
      [colChar c] := by
    rw [List.takeWhile_cons, isUpperCh_colChar hc]
    simp only [if_true]
    rw [hrend, List.cons_append,
      takeWhile_eq_nil_of_head (not_isUpperCh_of_isDigitCh hdig)]
  rw [h1]
  simp only [List.isEmpty_cons, List.length_cons, List.length_nil,
    List.drop_succ_cons, List.drop_zero, Bool.false_eq_true, if_false]
  rw [takeWhile_digits_renderNat r hrest]
  have h2 : (renderNat r).isEmpty = false := by
    rw [hrend]; rfl
  rw [h2]
  simp only [Bool.false_eq_true, if_false, List.drop_left]
  simp

/-! ## Rendered SUM formulas and the range round-trip -/

/-- Characters of a single-letter-column address. -/
def addrChars (c r : Nat) : List Char := colChar c :: renderNat r

/-- A single-letter-column address string such as `"B3"`. -/
def addrString (c r : Nat) : String := ⟨addrChars c r⟩

/-- The formula string `=SUM(X:Y)` over two rendered addresses. -/
def sumFormula (c1 r1 c2 r2 : Nat) : String :=
  ⟨'=' :: 'S' :: 'U' :: 'M' :: '(' ::
    (addrChars c1 r1 ++ ':' :: (addrChars c2 r2 ++ [')']))⟩

lemma matchSumAt_rendered {c1 r1 c2 r2 : Nat} (h1 : c1 < 26) (h2 : c2 < 26) :
    matchSumAt ('S' :: 'U' :: 'M' :: '(' ::
        (addrChars c1 r1 ++ ':' :: (addrChars c2 r2 ++ [')']))) =
      some (addrChars c1 r1, addrChars c2 r2) := by
  have hd : dropLit ['S', 'U', 'M', '(']
      ('S' :: 'U' :: 'M' :: '(' ::
        (addrChars c1 r1 ++ ':' :: (addrChars c2 r2 ++ [')']))) =
      some (addrChars c1 r1 ++ ':' :: (addrChars c2 r2 ++ [')'])) := by
    simp [dropLit]
  have hm1 : matchCellRef
      (addrChars c1 r1 ++ ':' :: (addrChars c2 r2 ++ [')'])) =
      some (addrChars c1 r1, ':' :: (addrChars c2 r2 ++ [')'])) := by
    show matchCellRef
      (colChar c1 :: (renderNat r1 ++ ':' :: (addrChars c2 r2 ++ [')']))) = _
    exact matchCellRef_rendered h1 (fun ch hch => by
      simp only [List.head?_cons, Option.some.injEq] at hch
      subst hch
      decide)
  have hm2 : matchCellRef (addrChars c2 r2 ++ [')']) =
      some (addrChars c2 r2, [')']) := by
    show matchCellRef (colChar c2 :: (renderNat r2 ++ [')'])) = _
    exact matchCellRef_rendered h2 (fun ch hch => by
      simp only [List.head?_cons, Option.some.injEq] at hch
      subst hch
      decide)
  simp only [matchSumAt, hd, hm1, hm2]

lemma findSum_rendered {c1 r1 c2 r2 : Nat} (h1 : c1 < 26) (h2 : c2 < 26) :
    findSum ('S' :: 'U' :: 'M' :: '(' ::
        (addrChars c1 r1 ++ ':' :: (addrChars c2 r2 ++ [')']))) =
      some (addrChars c1 r1, addrChars c2 r2) := by
  unfold findSum
  rw [matchSumAt_rendered h1 h2]

lemma colRowOf_addrChars {c : Nat} (hc : c < 26) (r : Nat) :
    colRowOf (addrChars c r) = (c, r) := by
  obtain ⟨d, ds, hrend, hdig⟩ := renderNat_head_digit r
  unfold colRowOf firstRun addrChars
  have hup : isUpperCh (colChar c) = true := isUpperCh_colChar hc
  have hnd : isDigitCh (colChar c) = false := not_isDigitCh_colChar hc
  have e1 : (colChar c :: renderNat r).dropWhile (fun ch => !isUpperCh ch) =
      colChar c :: renderNat r := by
    apply dropWhile_cons_of_head
    rw [hup]; rfl
  have e2 : (colChar c :: renderNat r).takeWhile isUpperCh = [colChar c] := by
    rw [List.takeWhile_cons, hup]
    simp only [if_true]
    rw [hrend, takeWhile_eq_nil_of_head (not_isUpperCh_of_isDigitCh hdig)]
  have e3 : (colChar c :: renderNat r).dropWhile (fun ch => !isDigitCh ch) =
      renderNat r := by
    rw [List.dropWhile_cons]
    simp only [hnd, Bool.not_false, if_true]
    rw [hrend]
    apply dropWhile_cons_of_head
    rw [hdig]; rfl
  have e4 : (renderNat r).takeWhile isDigitCh = renderNat r :=
    List.takeWhile_eq_self_iff.mpr (renderNat_all_digits r)
  rw [e1, e2, e3, e4]
  simp [colChar_toNat hc, digitsToNat_renderNat]

/-- The mathematical rectangular-span sum the specification describes:
over all rows and columns between the two corners inclusive, the
numeric coercion of each cell's display value. -/
def rectSum (g : Grid) (c1 r1 c2 r2 : Nat) : Int :=
  ∑ row ∈ Finset.Icc r1 r2, ∑ col ∈ Finset.Icc c1 c2,
    jsNumOr0 (getCellValue g (cellName col row))

lemma foldl_add_eq_sum (vs : List String) (a : Int) :
    vs.foldl (fun s v => s + jsNumOr0 v) a = a + (vs.map jsNumOr0).sum := by
  induction vs generalizing a with
  | nil => simp
  | cons v vt ih =>
    simp only [List.foldl_cons, List.map_cons, List.sum_cons, ih]
    ring

lemma map_sum_range' (f : Nat → Int) :
    ∀ (n a : Nat), ((List.range' a n).map f).sum = ∑ i ∈ Finset.Ico a (a + n), f i := by
  intro n
  induction n with
  | zero => intro a; simp
  | succ m ih =>
    intro a
    have hr : List.range' a (m + 1) = a :: List.range' (a + 1) m := rfl
    have hsplit : a + (m + 1) = a + 1 + m := by omega
    rw [hr]
    simp only [List.map_cons, List.sum_cons, ih (a + 1)]
    rw [Finset.sum_eq_sum_Ico_succ_bot (show a < a + (m + 1) by omega) f,
      hsplit]

lemma sum_map_flatMap (l : List Nat) (f : Nat → List String) :
    (((l.flatMap f).map jsNumOr0).sum : Int) =
      (l.map (fun x => ((f x).map jsNumOr0).sum)).sum := by
  induction l with
  | nil => simp
  | cons x xt ih =>
    simp only [List.flatMap_cons, List.map_append, List.sum_append, ih,
      List.map_cons, List.sum_cons]

lemma sumValues_getRangeValues (g : Grid) {c1 c2 : Nat}
    (hc1 : c1 < 26) (hc2 : c2 < 26) (r1 r2 : Nat) :
    sumValues (getRangeValues g (addrChars c1 r1) (addrChars c2 r2)) =
      ∑ row ∈ Finset.Ico r1 (r2 + 1), ∑ col ∈ Finset.Ico c1 (c2 + 1),
        jsNumOr0 (getCellValue g (cellName col row)) := by
  unfold getRangeValues sumValues
  rw [colRowOf_addrChars hc1, colRowOf_addrChars hc2]
  rw [foldl_add_eq_sum]
  simp only [zero_add]
  rw [sum_map_flatMap]
  have inner : ∀ row : Nat,
      ((((List.range' c1 (c2 + 1 - c1)).map fun col =>
          getCellValue g (cellName col row)).map jsNumOr0).sum : Int) =
        ∑ col ∈ Finset.Ico c1 (c2 + 1),
          jsNumOr0 (getCellValue g (cellName col row)) := by
    intro row
    rw [List.map_map, map_sum_range']
    by_cases h : c1 ≤ c2 + 1
    · have : c1 + (c2 + 1 - c1) = c2 + 1 := by omega
      rw [this]
      rfl
    · have h0 : c2 + 1 - c1 = 0 := by omega
      rw [h0, Nat.add_zero, Finset.Ico_self,
        Finset.Ico_eq_empty (show ¬c1 < c2 + 1 by omega)]
      simp
  simp only [inner]
  rw [map_sum_range' (fun row => ∑ col ∈ Finset.Ico c1 (c2 + 1),
    jsNumOr0 (getCellValue g (cellName col row)))]
  by_cases h : r1 ≤ r2 + 1
  · have : r1 + (r2 + 1 - r1) = r2 + 1 := by omega
    rw [this]
  · have h0 : r2 + 1 - r1 = 0 := by omega
    rw [h0, Nat.add_zero, Finset.Ico_self,
      Finset.Ico_eq_empty (show ¬r1 < r2 + 1 by omega)]

lemma evaluateFormulaCore_sumFormula (g : Grid) {c1 c2 : Nat}
    (hc1 : c1 < 26) (hc2 : c2 < 26) (r1 r2 : Nat) :
    evaluateFormulaCore g (sumFormula c1 r1 c2 r2) =
      some (JSValue.num
        (sumValues (getRangeValues g (addrChars c1 r1) (addrChars c2 r2)))) := by
  unfold evaluateFormulaCore
  have hexp : (sumFormula c1 r1 c2 r2).toList.drop 1 =
      'S' :: 'U' :: 'M' :: '(' ::
        (addrChars c1 r1 ++ ':' :: (addrChars c2 r2 ++ [')'])) := rfl
  rw [hexp]
  have hlead : leadsWith ['S', 'U', 'M', '(']
      ('S' :: 'U' :: 'M' :: '(' ::
        (addrChars c1 r1 ++ ':' :: (addrChars c2 r2 ++ [')']))) = true := by
    simp [leadsWith]
  simp only [hlead, if_true, findSum_rendered hc1 hc2]

lemma flatMap_const_nil (l : List Nat) :
    (l.flatMap fun _ => ([] : List String)) = [] := by
  induction l with
  | nil => rfl
  | cons x xt ih => simp [List.flatMap_cons, ih]

/-- Example grid of the specification: `A1 = "5"`, `A2 = "10"`,
committed in the manual (non-translating) mode. -/
def exampleGrid : Grid :=
  updateCell manualMode (updateCell manualMode emptyGrid "A1" "5") "A2" "10"

/-- Claim C1: committing a formula `=SUM(X:Y)` whose corners are
single-letter-column addresses with `X` the top-left corner stores, as
the cell's computed value, the arithmetic sum over every cell of the
rectangular span from `X` to `Y` of that cell's display value coerced
to a number (non-numeric text coercing to 0). -/
theorem C1_sum_formula_correct (mode : TranslationMode) (g : Grid)
    (key : String) {c1 c2 r1 r2 : Nat} (hc1 : c1 < 26) (hc2 : c2 < 26)
    (hcol : c1 ≤ c2) (hrow : r1 ≤ r2) :
    updateCell mode g key (sumFormula c1 r1 c2 r2) key =
      some { value := sumFormula c1 r1 c2 r2,
             formula := some (sumFormula c1 r1 c2 r2),
             computedValue := some (JSValue.num (rectSum g c1 r1 c2 r2)) } := by
  unfold updateCell
  have hb : beginsWithEq (sumFormula c1 r1 c2 r2) = true := rfl
  simp only [hb, if_true, if_pos rfl]
  unfold evaluateFormula
  rw [evaluateFormulaCore_sumFormula g hc1 hc2 r1 r2,
    sumValues_getRangeValues g hc1 hc2 r1 r2]
  unfold rectSum
  rw [Nat.Ico_succ_right, Nat.Ico_succ_right]

/-- Witness for C1, at the specification's own example: `A1 = "5"`,
`A2 = "10"`, `B1 = "=SUM(A1:A2)"` computes 15. -/
theorem C1_sum_formula_correct_witness :
    updateCell manualMode exampleGrid "B1" (sumFormula 0 1 0 2) "B1" =
      some { value := sumFormula 0 1 0 2,
             formula := some (sumFormula 0 1 0 2),
             computedValue :=
               some (JSValue.num (rectSum exampleGrid 0 1 0 2)) } ∧
      rectSum exampleGrid 0 1 0 2 = 15 :=
  ⟨C1_sum_formula_correct manualMode exampleGrid "B1"
      (by decide) (by decide) (by decide) (by decide),
    by
      have h : rectSum exampleGrid 0 1 0 2 =
          sumValues (getRangeValues exampleGrid (addrChars 0 1) (addrChars 0 2)) := by
        unfold rectSum
        rw [← Nat.Ico_succ_right, ← Nat.Ico_succ_right]
        exact (sumValues_getRangeValues exampleGrid (by decide) (by decide) 1 2).symm
      rw [h]
      decide⟩

/-- Claim C9: committing `=SUM(X:Y)` with a reversed range (end row
strictly above the start row, or end column strictly left of the start
column) resolves the range to the empty list of cells and computes 0,
not the error marker, whatever the intervening cells contain. -/
theorem C9_reversed_range_sum_zero (mode : TranslationMode) (g : Grid)
    (key : String) {c1 c2 r1 r2 : Nat} (hc1 : c1 < 26) (hc2 : c2 < 26)
    (hrev : r2 < r1 ∨ c2 < c1) :
    getRangeValues g (addrChars c1 r1) (addrChars c2 r2) = [] ∧
    updateCell mode g key (sumFormula c1 r1 c2 r2) key =
      some { value := sumFormula c1 r1 c2 r2,
             formula := some (sumFormula c1 r1 c2 r2),
             computedValue := some (JSValue.num 0) } := by
  have hempty : getRangeValues g (addrChars c1 r1) (addrChars c2 r2) = [] := by
    unfold getRangeValues
    rw [colRowOf_addrChars hc1, colRowOf_addrChars hc2]
    dsimp only
    rcases hrev with h | h
    · have h0 : r2 + 1 - r1 = 0 := by omega
      rw [h0]
      rfl
    · have h0 : c2 + 1 - c1 = 0 := by omega
      rw [h0]
      have : List.range' c1 0 = [] := rfl
      rw [this]
      simp only [List.map_nil]
      exact flatMap_const_nil _
  refine ⟨hempty, ?_⟩
  unfold updateCell
  have hb : beginsWithEq (sumFormula c1 r1 c2 r2) = true := rfl
  simp only [hb, if_true, if_pos rfl]
  unfold evaluateFormula
  rw [evaluateFormulaCore_sumFormula g hc1 hc2 r1 r2]
  rw [hempty]
  rfl

/-- Witness for C9: `=SUM(B2:A1)` on the example grid computes 0. -/
theorem C9_reversed_range_sum_zero_witness :
    getRangeValues exampleGrid (addrChars 1 2) (addrChars 0 1) = [] ∧
    updateCell manualMode exampleGrid "C1" (sumFormula 1 2 0 1) "C1" =
      some { value := sumFormula 1 2 0 1,
             formula := some (sumFormula 1 2 0 1),
             computedValue := some (JSValue.num 0) } :=
  C9_reversed_range_sum_zero manualMode exampleGrid "C1"
    (by decide) (by decide) (Or.inl (by decide))

/-! ## Parser lemmas: fuel monotonicity and builders -/

/-- Head test: the next token does not continue a term (`*`/`/`). -/
def noMulHead : List Tok → Bool
  | Tok.star :: _ => false
  | Tok.slash :: _ => false
  | _ => true

/-- Head test: the next token does not continue an expression (`+`/`-`). -/
def noAddHead : List Tok → Bool
  | Tok.plus :: _ => false
  | Tok.minus :: _ => false
  | _ => true

lemma parse_mono_step : ∀ f : Nat,
    (∀ ts r, pExpr f ts = some r → pExpr (f + 1) ts = some r) ∧
    (∀ a ts r, pExprLoop f a ts = some r → pExprLoop (f + 1) a ts = some r) ∧
    (∀ ts r, pTerm f ts = some r → pTerm (f + 1) ts = some r) ∧
    (∀ a ts r, pTermLoop f a ts = some r → pTermLoop (f + 1) a ts = some r) ∧
    (∀ ts r, pFactor f ts = some r → pFactor (f + 1) ts = some r) := by
  intro f
  induction f with
  | zero =>
    refine ⟨?_, ?_, ?_, ?_, ?_⟩ <;> intros _ _ <;>
      simp [pExpr, pExprLoop, pTerm, pTermLoop, pFactor]
  | succ f ih =>
    obtain ⟨ihE, ihEL, ihT, ihTL, ihF⟩ := ih
    have stepE : ∀ ts r, pExpr (f + 1) ts = some r →
        pExpr (f + 2) ts = some r := by
      intro ts r h
      simp only [pExpr] at h ⊢
      cases hpt : pTerm f ts with
      | none => rw [hpt] at h; exact absurd h (by simp)
      | some p =>
        obtain ⟨v, rest⟩ := p
        rw [hpt] at h
        rw [ihT _ _ hpt]
        exact ihEL _ _ _ h
    have stepT : ∀ ts r, pTerm (f + 1) ts = some r →
        pTerm (f + 2) ts = some r := by
      intro ts r h
      simp only [pTerm] at h ⊢
      cases hpf : pFactor f ts with
      | none => rw [hpf] at h; exact absurd h (by simp)
      | some p =>
        obtain ⟨v, rest⟩ := p
        rw [hpf] at h
        rw [ihF _ _ hpf]
        exact ihTL _ _ _ h
    refine ⟨stepE, ?_, stepT, ?_, ?_⟩
    · intro a ts r h
      cases ts with
      | nil => exact h
      | cons t ts' =>
        cases t with
        | plus =>
          simp only [pExprLoop] at h ⊢
          cases hpt : pTerm f ts' with
          | none => rw [hpt] at h; exact absurd h (by simp)
          | some p =>
            obtain ⟨v, rest⟩ := p
            rw [hpt] at h
            rw [ihT _ _ hpt]
            exact ihEL _ _ _ h
        | minus =>
          simp only [pExprLoop] at h ⊢
          cases hpt : pTerm f ts' with
          | none => rw [hpt] at h; exact absurd h (by simp)
          | some p =>
            obtain ⟨v, rest⟩ := p
            rw [hpt] at h
            rw [ihT _ _ hpt]
            exact ihEL _ _ _ h
        | num n => exact h
        | lparen => exact h
        | rparen => exact h
        | star => exact h
        | slash => exact h
    · intro a ts r h
      cases ts with
      | nil => exact h
      | cons t ts' =>
        cases t with
        | star =>
          simp only [pTermLoop] at h ⊢
          cases hpf : pFactor f ts' with
          | none => rw [hpf] at h; exact absurd h (by simp)
          | some p =>
            obtain ⟨v, rest⟩ := p
            rw [hpf] at h
            rw [ihF _ _ hpf]
            exact ihTL _ _ _ h
        | slash =>
          simp only [pTermLoop] at h ⊢
          cases hpf : pFactor f ts' with
          | none => rw [hpf] at h; exact absurd h (by simp)
          | some p =>
            obtain ⟨v, rest⟩ := p
            rw [hpf] at h
            rw [ihF _ _ hpf]
            dsimp only at h ⊢
            by_cases hc : v ≠ 0 ∧ v ∣ a
            · rw [if_pos hc] at h
              rw [if_pos hc]
              exact ihTL _ _ _ h
            · rw [if_neg hc] at h
              exact absurd h (by simp)
        | num n => exact h
        | lparen => exact h
        | rparen => exact h
        | plus => exact h
        | minus => exact h
    · intro ts r h
      cases ts with
      | nil => exact h
      | cons t ts' =>
        cases t with
        | num n => exact h
        | minus =>
          simp only [pFactor] at h ⊢
          cases hpf : pFactor f ts' with
          | none => rw [hpf] at h; exact absurd h (by simp)
          | some p =>
            obtain ⟨v, rest⟩ := p
            rw [hpf] at h
            rw [ihF _ _ hpf]
            exact h
        | plus =>
          simp only [pFactor] at h ⊢
          exact ihF _ _ h
        | lparen =>
          simp only [pFactor] at h ⊢
          cases hpe : pExpr f ts' with
          | none => rw [hpe] at h; exact absurd h (by simp)
          | some p =>
            obtain ⟨v, rest⟩ := p
            rw [hpe] at h
            rw [ihE _ _ hpe]
            exact h
        | rparen => exact h
        | star => exact h
        | slash => exact h

lemma pExpr_mono {f g : Nat} {ts : List Tok} {r : Int × List Tok}
    (hle : f ≤ g) (h : pExpr f ts = some r) : pExpr g ts = some r := by
  induction hle with
  | refl => exact h
  | step _ ih => exact (parse_mono_step _).1 _ _ ih

lemma pTerm_mono {f g : Nat} {ts : List Tok} {r : Int × List Tok}
    (hle : f ≤ g) (h : pTerm f ts = some r) : pTerm g ts = some r := by
  induction hle with
  | refl => exact h
  | step _ ih => exact (parse_mono_step _).2.2.1 _ _ ih

lemma pFactor_mono {f g : Nat} {ts : List Tok} {r : Int × List Tok}
    (hle : f ≤ g) (h : pFactor f ts = some r) : pFactor g ts = some r := by
  induction hle with
  | refl => exact h
  | step _ ih => exact (parse_mono_step _).2.2.2.2 _ _ ih

lemma pFactor_pos {f : Nat} {ts : List Tok} {r : Int × List Tok}
    (h : pFactor f ts = some r) : 1 ≤ f := by
  cases f with
  | zero => exact absurd h (by simp [pFactor])
  | succ k => omega

lemma pTerm_pos {f : Nat} {ts : List Tok} {r : Int × List Tok}
    (h : pTerm f ts = some r) : 1 ≤ f := by
  cases f with
  | zero => exact absurd h (by simp [pTerm])
  | succ k => omega

lemma pTermLoop_stop {f : Nat} (acc : Int) {ts : List Tok}
    (h : noMulHead ts = true) : pTermLoop (f + 1) acc ts = some (acc, ts) := by
  cases ts with
  | nil => rfl
  | cons t ts' =>
    cases t with
    | star => exact absurd h (by simp [noMulHead])
    | slash => exact absurd h (by simp [noMulHead])
    | num n => rfl
    | lparen => rfl
    | rparen => rfl
    | plus => rfl
    | minus => rfl

lemma pExprLoop_stop {f : Nat} (acc : Int) {ts : List Tok}
    (h : noAddHead ts = true) : pExprLoop (f + 1) acc ts = some (acc, ts) := by
  cases ts with
  | nil => rfl
  | cons t ts' =>
    cases t with
    | plus => exact absurd h (by simp [noAddHead])
    | minus => exact absurd h (by simp [noAddHead])
    | num n => rfl
    | lparen => rfl
    | rparen => rfl
    | star => rfl
    | slash => rfl

/-- A factor whose continuation starts no `*`/`/` is a whole term. -/
lemma pTerm_of_pFactor {f : Nat} {ts rest : List Tok} {v : Int}
    (h : pFactor f ts = some (v, rest)) (hstop : noMulHead rest = true) :
    pTerm (f + 1) ts = some (v, rest) := by
  obtain ⟨k, rfl⟩ : ∃ k, f = k + 1 := ⟨f - 1, by have := pFactor_pos h; omega⟩
  simp only [pTerm, h]
  exact pTermLoop_stop v hstop

/-- A term whose continuation starts no `+`/`-` is a whole expression. -/
lemma pExpr_of_pTerm {f : Nat} {ts rest : List Tok} {v : Int}
    (h : pTerm f ts = some (v, rest)) (hstop : noAddHead rest = true) :
    pExpr (f + 1) ts = some (v, rest) := by
  obtain ⟨k, rfl⟩ : ∃ k, f = k + 1 := ⟨f - 1, by have := pTerm_pos h; omega⟩
  simp only [pExpr, h]
  exact pExprLoop_stop v hstop

/-- Builder for `a + b` at expression level. -/
lemma pExpr_plus {F : Nat} {ts ts2 rest : List Tok} {va vb : Int}
    (h1 : pTerm F ts = some (va, Tok.plus :: ts2))
    (h2 : pTerm F ts2 = some (vb, rest)) (hstop : noAddHead rest = true) :
    pExpr (F + 2) ts = some (va + vb, rest) := by
  have hF := pTerm_pos h1
  simp only [pExpr]
  rw [pTerm_mono (show F ≤ F + 1 by omega) h1]
  simp only [pExprLoop, h2]
  obtain ⟨k, rfl⟩ : ∃ k, F = k + 1 := ⟨F - 1, by omega⟩
  exact pExprLoop_stop _ hstop

/-- Builder for `a - b` at expression level. -/
lemma pExpr_minus {F : Nat} {ts ts2 rest : List Tok} {va vb : Int}
    (h1 : pTerm F ts = some (va, Tok.minus :: ts2))
    (h2 : pTerm F ts2 = some (vb, rest)) (hstop : noAddHead rest = true) :
    pExpr (F + 2) ts = some (va - vb, rest) := by
  have hF := pTerm_pos h1
  simp only [pExpr]
  rw [pTerm_mono (show F ≤ F + 1 by omega) h1]
  simp only [pExprLoop, h2]
  obtain ⟨k, rfl⟩ : ∃ k, F = k + 1 := ⟨F - 1, by omega⟩
  exact pExprLoop_stop _ hstop

/-- Builder for `a * b` at term level. -/
lemma pTerm_mulop {F : Nat} {ts ts2 rest : List Tok} {va vb : Int}
    (h1 : pFactor F ts = some (va, Tok.star :: ts2))
    (h2 : pFactor F ts2 = some (vb, rest)) (hstop : noMulHead rest = true) :
    pTerm (F + 2) ts = some (va * vb, rest) := by
  have hF := pFactor_pos h1
  simp only [pTerm]
  rw [pFactor_mono (show F ≤ F + 1 by omega) h1]
  simp only [pTermLoop, h2]
  obtain ⟨k, rfl⟩ : ∃ k, F = k + 1 := ⟨F - 1, by omega⟩
  exact pTermLoop_stop _ hstop

/-- Builder for exact division `a / b` at term level. -/
lemma pTerm_divop {F : Nat} {ts ts2 rest : List Tok} {va vb : Int}
    (h1 : pFactor F ts = some (va, Tok.slash :: ts2))
    (h2 : pFactor F ts2 = some (vb, rest))
    (hdvd : vb ≠ 0 ∧ vb ∣ va) (hstop : noMulHead rest = true) :
    pTerm (F + 2) ts = some (va / vb, rest) := by
  have hF := pFactor_pos h1
  simp only [pTerm]
  rw [pFactor_mono (show F ≤ F + 1 by omega) h1]
  simp only [pTermLoop, h2]
  rw [if_pos hdvd]
  obtain ⟨k, rfl⟩ : ∃ k, F = k + 1 := ⟨F - 1, by omega⟩
  exact pTermLoop_stop _ hstop

lemma pFactor_neg_tok {f : Nat} {ts rest : List Tok} {v : Int}
    (h : pFactor f ts = some (v, rest)) :
    pFactor (f + 1) (Tok.minus :: ts) = some (-v, rest) := by
  simp only [pFactor, h]

lemma pFactor_paren {f : Nat} {ts rest : List Tok} {v : Int}
    (h : pExpr f ts = some (v, Tok.rparen :: rest)) :
    pFactor (f + 1) (Tok.lparen :: ts) = some (v, rest) := by
  simp only [pFactor, h]

/-! ## Arithmetic formulas with cell references (for the claim about
non-SUM formulas) -/

/-- Abstract syntax of the arithmetic formulas the specification
quantifies over: numeric literals, cell references, unary minus and the
four binary operators. -/
inductive ArithExpr
  | num (n : Nat)
  | ref (c r : Nat)
  | neg (e : ArithExpr)
  | add (a b : ArithExpr)
  | sub (a b : ArithExpr)
  | mul (a b : ArithExpr)
  | div (a b : ArithExpr)
deriving DecidableEq, Repr

/-- All cell references use single-letter columns (`A`–`Z`), the only
addresses the engine resolves correctly. -/
def refsOk : ArithExpr → Bool
  | .num _ => true
  | .ref c _ => c < 26
  | .neg e => refsOk e
  | .add a b => refsOk a && refsOk b
  | .sub a b => refsOk a && refsOk b
  | .mul a b => refsOk a && refsOk b
  | .div a b => refsOk a && refsOk b

/-- The specification's reading of a formula: evaluate the expression
after substituting each referenced address with that cell's display
value coerced to a number (non-numeric → 0).  Division is defined only
where exact, matching the modelled fragment of `eval`. -/
def specEval (g : Grid) : ArithExpr → Option Int
  | .num n => some n
  | .ref c r => some (jsNumOr0 (getCellValue g (addrString c r)))
  | .neg e =>
    match specEval g e with
    | some v => some (-v)
    | none => none
  | .add a b =>
    match specEval g a, specEval g b with
    | some va, some vb => some (va + vb)
    | _, _ => none
  | .sub a b =>
    match specEval g a, specEval g b with
    | some va, some vb => some (va - vb)
    | _, _ => none
  | .mul a b =>
    match specEval g a, specEval g b with
    | some va, some vb => some (va * vb)
    | _, _ => none
  | .div a b =>
    match specEval g a, specEval g b with
    | some va, some vb =>
      if vb ≠ 0 ∧ vb ∣ va then some (va / vb) else none
    | _, _ => none

/-- Concrete formula text of an `ArithExpr` (compound sub-expressions
fully parenthesised, as a user would disambiguate them). -/
def render : ArithExpr → List Char
  | .num n => renderNat n
  | .ref c r => addrChars c r
  | .neg e => '(' :: '-' :: (render e ++ [')'])
  | .add a b => '(' :: (render a ++ '+' :: (render b ++ [')']))
  | .sub a b => '(' :: (render a ++ '-' :: (render b ++ [')']))
  | .mul a b => '(' :: (render a ++ '*' :: (render b ++ [')']))
  | .div a b => '(' :: (render a ++ '/' :: (render b ++ [')']))

/-- The characters of `render` after the reference-substitution pass. -/
def flatSub (g : Grid) : ArithExpr → List Char
  | .num n => renderNat n
  | .ref c r => renderInt (jsNumOr0 (getCellValue g (addrString c r)))
  | .neg e => '(' :: '-' :: (flatSub g e ++ [')'])
  | .add a b => '(' :: (flatSub g a ++ '+' :: (flatSub g b ++ [')']))
  | .sub a b => '(' :: (flatSub g a ++ '-' :: (flatSub g b ++ [')']))
  | .mul a b => '(' :: (flatSub g a ++ '*' :: (flatSub g b ++ [')']))
  | .div a b => '(' :: (flatSub g a ++ '/' :: (flatSub g b ++ [')']))

/-- Token form of a substituted integer value. -/
def tokInt (v : Int) : List Tok :=
  if v < 0 then [Tok.minus, Tok.num v.natAbs] else [Tok.num v.toNat]

/-- The token stream of `flatSub`. -/
def tokME (g : Grid) : ArithExpr → List Tok
  | .num n => [Tok.num n]
  | .ref c r => tokInt (jsNumOr0 (getCellValue g (addrString c r)))
  | .neg e => Tok.lparen :: Tok.minus :: (tokME g e ++ [Tok.rparen])
  | .add a b => Tok.lparen :: (tokME g a ++ Tok.plus :: (tokME g b ++ [Tok.rparen]))
  | .sub a b => Tok.lparen :: (tokME g a ++ Tok.minus :: (tokME g b ++ [Tok.rparen]))
  | .mul a b => Tok.lparen :: (tokME g a ++ Tok.star :: (tokME g b ++ [Tok.rparen]))
  | .div a b => Tok.lparen :: (tokME g a ++ Tok.slash :: (tokME g b ++ [Tok.rparen]))

/-! ### The substitution pass on rendered formulas -/

lemma substRefs_nonref_char (g : Grid) {c : Char}
    (h : isUpperCh c = false) (cs : List Char) :
    substRefs g (c :: cs) = c :: substRefs g cs := by
  rw [substRefs_cons]
  have hm : matchCellRef (c :: cs) = none := by
    unfold matchCellRef
    rw [takeWhile_eq_nil_of_head h]
    simp
  rw [hm]

lemma substRefs_digits (g : Grid) {ds : List Char}
    (h : ∀ c ∈ ds, isDigitCh c = true) (rest : List Char) :
    substRefs g (ds ++ rest) = ds ++ substRefs g rest := by
  induction ds with
  | nil => simp
  | cons d ds' ih =>
    have hd := h d (List.mem_cons_self d ds')
    rw [List.cons_append,
      substRefs_nonref_char g (not_isUpperCh_of_isDigitCh hd),
      ih (fun c hc => h c (List.mem_cons_of_mem d hc))]
    rfl

lemma substRefs_ref (g : Grid) {c r : Nat} (hc : c < 26) {rest : List Char}
    (hrest : ∀ ch, rest.head? = some ch → isDigitCh ch = false) :
    substRefs g (addrChars c r ++ rest) =
      renderInt (jsNumOr0 (getCellValue g (addrString c r))) ++
        substRefs g rest := by
  show substRefs g (colChar c :: (renderNat r ++ rest)) = _
  rw [substRefs_cons, matchCellRef_rendered hc hrest]
  rfl

lemma substRefs_render (g : Grid) :
    ∀ (e : ArithExpr) (rest : List Char), refsOk e = true →
      (∀ ch, rest.head? = some ch → isDigitCh ch = false) →
      substRefs g (render e ++ rest) = flatSub g e ++ substRefs g rest := by
  intro e
  induction e with
  | num n =>
    intro rest _ _
    exact substRefs_digits g (renderNat_all_digits n) rest
  | ref c r =>
    intro rest hok hrest
    simp only [refsOk, decide_eq_true_eq] at hok
    exact substRefs_ref g hok hrest
  | neg e ih =>
    intro rest hok hrest
    simp only [refsOk] at hok
    show substRefs g (('(' :: '-' :: (render e ++ [')'])) ++ rest) = _
    have hsh : ('(' :: '-' :: (render e ++ [')'])) ++ rest =
        '(' :: '-' :: (render e ++ (')' :: rest)) := by simp
    rw [hsh, substRefs_nonref_char g (by decide),
      substRefs_nonref_char g (by decide),
      ih (')' :: rest) hok (by
        intro ch hch
        simp only [List.head?_cons, Option.some.injEq] at hch
        subst hch
        decide),
      substRefs_nonref_char g (by decide)]
    show _ = ('(' :: '-' :: (flatSub g e ++ [')'])) ++ substRefs g rest
    simp
  | add a b iha ihb =>
    intro rest hok hrest
    simp only [refsOk, Bool.and_eq_true] at hok
    show substRefs g (('(' :: (render a ++ '+' :: (render b ++ [')']))) ++ rest) = _
    have hsh : ('(' :: (render a ++ '+' :: (render b ++ [')']))) ++ rest =
        '(' :: (render a ++ ('+' :: (render b ++ (')' :: rest)))) := by simp
    rw [hsh, substRefs_nonref_char g (by decide),
      iha ('+' :: (render b ++ (')' :: rest))) hok.1 (by
        intro ch hch
        simp only [List.head?_cons, Option.some.injEq] at hch
        subst hch
        decide),
      substRefs_nonref_char g (by decide),
      ihb (')' :: rest) hok.2 (by
        intro ch hch
        simp only [List.head?_cons, Option.some.injEq] at hch
        subst hch
        decide),
      substRefs_nonref_char g (by decide)]
    show _ = ('(' :: (flatSub g a ++ '+' :: (flatSub g b ++ [')']))) ++ substRefs g rest
    simp
  | sub a b iha ihb =>
    intro rest hok hrest
    simp only [refsOk, Bool.and_eq_true] at hok
    show substRefs g (('(' :: (render a ++ '-' :: (render b ++ [')']))) ++ rest) = _
    have hsh : ('(' :: (render a ++ '-' :: (render b ++ [')']))) ++ rest =
        '(' :: (render a ++ ('-' :: (render b ++ (')' :: rest)))) := by simp
    rw [hsh, substRefs_nonref_char g (by decide),
      iha ('-' :: (render b ++ (')' :: rest))) hok.1 (by
        intro ch hch
        simp only [List.head?_cons, Option.some.injEq] at hch
        subst hch
        decide),
      substRefs_nonref_char g (by decide),
      ihb (')' :: rest) hok.2 (by
        intro ch hch
        simp only [List.head?_cons, Option.some.injEq] at hch
        subst hch
        decide),
      substRefs_nonref_char g (by decide)]
    show _ = ('(' :: (flatSub g a ++ '-' :: (flatSub g b ++ [')']))) ++ substRefs g rest
    simp
  | mul a b iha ihb =>
    intro rest hok hrest
    simp only [refsOk, Bool.and_eq_true] at hok
    show substRefs g (('(' :: (render a ++ '*' :: (render b ++ [')']))) ++ rest) = _
    have hsh : ('(' :: (render a ++ '*' :: (render b ++ [')']))) ++ rest =
        '(' :: (render a ++ ('*' :: (render b ++ (')' :: rest)))) := by simp
    rw [hsh, substRefs_nonref_char g (by decide),
      iha ('*' :: (render b ++ (')' :: rest))) hok.1 (by
        intro ch hch
        simp only [List.head?_cons, Option.some.injEq] at hch
        subst hch
        decide),
      substRefs_nonref_char g (by decide),
      ihb (')' :: rest) hok.2 (by
        intro ch hch
        simp only [List.head?_cons, Option.some.injEq] at hch
        subst hch
        decide),
      substRefs_nonref_char g (by decide)]
    show _ = ('(' :: (flatSub g a ++ '*' :: (flatSub g b ++ [')']))) ++ substRefs g rest
    simp
  | div a b iha ihb =>
    intro rest hok hrest
    simp only [refsOk, Bool.and_eq_true] at hok
    show substRefs g (('(' :: (render a ++ '/' :: (render b ++ [')']))) ++ rest) = _
    have hsh : ('(' :: (render a ++ '/' :: (render b ++ [')']))) ++ rest =
        '(' :: (render a ++ ('/' :: (render b ++ (')' :: rest)))) := by simp
    rw [hsh, substRefs_nonref_char g (by decide),
      iha ('/' :: (render b ++ (')' :: rest))) hok.1 (by
        intro ch hch
        simp only [List.head?_cons, Option.some.injEq] at hch
        subst hch
        decide),
      substRefs_nonref_char g (by decide),
      ihb (')' :: rest) hok.2 (by
        intro ch hch
        simp only [List.head?_cons, Option.some.injEq] at hch
        subst hch
        decide),
      substRefs_nonref_char g (by decide)]
    show _ = ('(' :: (flatSub g a ++ '/' :: (flatSub g b ++ [')']))) ++ substRefs g rest
    simp

/-! ### Lexing the substituted formula -/

lemma not_isWsCh_of_isDigitCh {c : Char} (h : isDigitCh c = true) :
    isWsCh c = false := by
  simp only [isDigitCh, Bool.and_eq_true, decide_eq_true_eq] at h
  simp only [isWsCh, Bool.or_eq_false_iff, decide_eq_false_iff_not]
  omega

lemma tokenize_digits (g : Grid) {ds : List Char} (hne : ds ≠ [])
    (hdig : ∀ c ∈ ds, isDigitCh c = true) {rest : List Char}
    (hrest : ∀ ch, rest.head? = some ch → isDigitCh ch = false) :
    tokenize (ds ++ rest) =
      (tokenize rest).map (Tok.num (digitsToNat ds) :: ·) := by
  cases ds with
  | nil => exact absurd rfl hne
  | cons d ds' =>
    have hd := hdig d (List.mem_cons_self d ds')
    have htw : ((d :: ds') ++ rest).takeWhile isDigitCh = d :: ds' := by
      rw [takeWhile_append_of_all hdig]
      cases rest with
      | nil => simp
      | cons x xs =>
        rw [takeWhile_eq_nil_of_head (hrest x rfl)]
        simp
    have hdw : ((d :: ds') ++ rest).dropWhile isDigitCh = rest := by
      rw [dropWhile_append_of_all hdig]
      cases rest with
      | nil => simp
      | cons x xs => exact dropWhile_cons_of_head (hrest x rfl) xs
    rw [List.cons_append, tokenize_cons]
    rw [not_isWsCh_of_isDigitCh hd]
    simp only [Bool.false_eq_true, if_false, hd, if_true]
    rw [← List.cons_append, htw, hdw]

lemma tokenize_tokInt (g : Grid) (v : Int) {rest : List Char}
    (hrest : ∀ ch, rest.head? = some ch → isDigitCh ch = false) :
    tokenize (renderInt v ++ rest) =
      (tokenize rest).map (fun ts => tokInt v ++ ts) := by
  by_cases hneg : v < 0
  · have hri : renderInt v = '-' :: renderNat v.natAbs := by
      simp [renderInt, hneg]
    rw [hri, List.cons_append, tokenize_cons]
    have h1 : isWsCh '-' = false := by decide
    have h2 : isDigitCh '-' = false := by decide
    rw [h1, h2]
    simp only [Bool.false_eq_true, if_false]
    rw [tokenize_digits g (renderNat_ne_nil _) (renderNat_all_digits _) hrest]
    rw [Option.map_map]
    have : tokInt v = [Tok.minus, Tok.num v.natAbs] := by
      simp [tokInt, hneg]
    rw [this, digitsToNat_renderNat]
    rfl
  · have hri : renderInt v = renderNat v.toNat := by
      simp [renderInt, hneg]
    rw [hri,
      tokenize_digits g (renderNat_ne_nil _) (renderNat_all_digits _) hrest,
      digitsToNat_renderNat]
    have : tokInt v = [Tok.num v.toNat] := by
      simp [tokInt, hneg]
    rw [this]
    rfl

lemma tokenize_op_char (c : Char) (t : Tok) (cs : List Char)
    (hc : (c = '+' ∧ t = Tok.plus) ∨ (c = '-' ∧ t = Tok.minus) ∨
      (c = '*' ∧ t = Tok.star) ∨ (c = '/' ∧ t = Tok.slash) ∨
      (c = '(' ∧ t = Tok.lparen) ∨ (c = ')' ∧ t = Tok.rparen)) :
    tokenize (c :: cs) = (tokenize cs).map (t :: ·) := by
  rcases hc with ⟨rfl, rfl⟩ | ⟨rfl, rfl⟩ | ⟨rfl, rfl⟩ | ⟨rfl, rfl⟩ |
    ⟨rfl, rfl⟩ | ⟨rfl, rfl⟩ <;>
    rw [tokenize_cons] <;> rfl

lemma tokenize_flatSub (g : Grid) :
    ∀ (e : ArithExpr) (rest : List Char),
      (∀ ch, rest.head? = some ch → isDigitCh ch = false) →
      tokenize (flatSub g e ++ rest) =
        (tokenize rest).map (fun ts => tokME g e ++ ts) := by
  intro e
  induction e with
  | num n =>
    intro rest hrest
    show tokenize (renderNat n ++ rest) = _
    rw [tokenize_digits g (renderNat_ne_nil _) (renderNat_all_digits _) hrest,
      digitsToNat_renderNat]
    rfl
  | ref c r =>
    intro rest hrest
    exact tokenize_tokInt g _ hrest
  | neg e ih =>
    intro rest hrest
    show tokenize (('(' :: '-' :: (flatSub g e ++ [')'])) ++ rest) = _
    have hsh : ('(' :: '-' :: (flatSub g e ++ [')'])) ++ rest =
        '(' :: '-' :: (flatSub g e ++ (')' :: rest)) := by simp
    rw [hsh, tokenize_op_char '(' Tok.lparen _ (by simp),
      tokenize_op_char '-' Tok.minus _ (by simp),
      ih (')' :: rest) (by
        intro ch hch
        simp only [List.head?_cons, Option.some.injEq] at hch
        subst hch
        decide),
      tokenize_op_char ')' Tok.rparen _ (by simp)]
    simp only [Option.map_map]
    congr 1
    funext ts
    simp [tokME]
  | add a b iha ihb =>
    intro rest hrest
    show tokenize (('(' :: (flatSub g a ++ '+' :: (flatSub g b ++ [')']))) ++ rest) = _
    have hsh : ('(' :: (flatSub g a ++ '+' :: (flatSub g b ++ [')']))) ++ rest =
        '(' :: (flatSub g a ++ ('+' :: (flatSub g b ++ (')' :: rest)))) := by simp
    rw [hsh, tokenize_op_char '(' Tok.lparen _ (by simp),
      iha ('+' :: (flatSub g b ++ (')' :: rest))) (by
        intro ch hch
        simp only [List.head?_cons, Option.some.injEq] at hch
        subst hch
        decide),
      tokenize_op_char '+' Tok.plus _ (by simp),
      ihb (')' :: rest) (by
        intro ch hch
        simp only [List.head?_cons, Option.some.injEq] at hch
        subst hch
        decide),
      tokenize_op_char ')' Tok.rparen _ (by simp)]
    simp only [Option.map_map]
    congr 1
    funext ts
    simp [tokME]
  | sub a b iha ihb =>
    intro rest hrest
    show tokenize (('(' :: (flatSub g a ++ '-' :: (flatSub g b ++ [')']))) ++ rest) = _
    have hsh : ('(' :: (flatSub g a ++ '-' :: (flatSub g b ++ [')']))) ++ rest =
        '(' :: (flatSub g a ++ ('-' :: (flatSub g b ++ (')' :: rest)))) := by simp
    rw [hsh, tokenize_op_char '(' Tok.lparen _ (by simp),
      iha ('-' :: (flatSub g b ++ (')' :: rest))) (by
        intro ch hch
        simp only [List.head?_cons, Option.some.injEq] at hch
        subst hch
        decide),
      tokenize_op_char '-' Tok.minus _ (by simp),
      ihb (')' :: rest) (by
        intro ch hch
        simp only [List.head?_cons, Option.some.injEq] at hch
        subst hch
        decide),
      tokenize_op_char ')' Tok.rparen _ (by simp)]
    simp only [Option.map_map]
    congr 1
    funext ts
    simp [tokME]
  | mul a b iha ihb =>
    intro rest hrest
    show tokenize (('(' :: (flatSub g a ++ '*' :: (flatSub g b ++ [')']))) ++ rest) = _
    have hsh : ('(' :: (flatSub g a ++ '*' :: (flatSub g b ++ [')']))) ++ rest =
        '(' :: (flatSub g a ++ ('*' :: (flatSub g b ++ (')' :: rest)))) := by simp
    rw [hsh, tokenize_op_char '(' Tok.lparen _ (by simp),
      iha ('*' :: (flatSub g b ++ (')' :: rest))) (by
        intro ch hch
        simp only [List.head?_cons, Option.some.injEq] at hch
        subst hch
        decide),
      tokenize_op_char '*' Tok.star _ (by simp),
      ihb (')' :: rest) (by
        intro ch hch
        simp only [List.head?_cons, Option.some.injEq] at hch
        subst hch
        decide),
      tokenize_op_char ')' Tok.rparen _ (by simp)]
    simp only [Option.map_map]
    congr 1
    funext ts
    simp [tokME]
  | div a b iha ihb =>
    intro rest hrest
    show tokenize (('(' :: (flatSub g a ++ '/' :: (flatSub g b ++ [')']))) ++ rest) = _
    have hsh : ('(' :: (flatSub g a ++ '/' :: (flatSub g b ++ [')']))) ++ rest =
        '(' :: (flatSub g a ++ ('/' :: (flatSub g b ++ (')' :: rest)))) := by simp
    rw [hsh, tokenize_op_char '(' Tok.lparen _ (by simp),
      iha ('/' :: (flatSub g b ++ (')' :: rest))) (by
        intro ch hch
        simp only [List.head?_cons, Option.some.injEq] at hch
        subst hch
        decide),
      tokenize_op_char '/' Tok.slash _ (by simp),
      ihb (')' :: rest) (by
        intro ch hch
        simp only [List.head?_cons, Option.some.injEq] at hch
        subst hch
        decide),
      tokenize_op_char ')' Tok.rparen _ (by simp)]
    simp only [Option.map_map]
    congr 1
    funext ts
    simp [tokME]

/-! ### Parsing the substituted formula -/

/-- Fuel budget sufficient to parse the token stream of an expression. -/
def fNeed : ArithExpr → Nat
  | .num _ => 1
  | .ref _ _ => 2
  | .neg e => fNeed e + 5
  | .add a b => fNeed a + fNeed b + 6
  | .sub a b => fNeed a + fNeed b + 6
  | .mul a b => fNeed a + fNeed b + 6
  | .div a b => fNeed a + fNeed b + 6

lemma fNeed_pos (e : ArithExpr) : 1 ≤ fNeed e := by
  cases e <;> simp [fNeed]

lemma pFactor_tokInt {v : Int} (rest : List Tok) :
    pFactor 2 (tokInt v ++ rest) = some (v, rest) := by
  by_cases hneg : v < 0
  · have ht : tokInt v = [Tok.minus, Tok.num v.natAbs] := by
      simp [tokInt, hneg]
    rw [ht]
    show pFactor 2 (Tok.minus :: Tok.num v.natAbs :: rest) = _
    have h1 : pFactor 1 (Tok.num v.natAbs :: rest) =
        some ((v.natAbs : Int), rest) := rfl
    have h2 := pFactor_neg_tok h1
    rw [h2]
    congr 1
    ext
    · omega
    · rfl
  · have ht : tokInt v = [Tok.num v.toNat] := by
      simp [tokInt, hneg]
    rw [ht]
    show pFactor 2 (Tok.num v.toNat :: rest) = _
    show some ((v.toNat : Int), rest) = some (v, rest)
    congr 1
    ext
    · omega
    · rfl

lemma pFactor_tokME (g : Grid) :
    ∀ (e : ArithExpr) {v : Int}, specEval g e = some v →
      ∀ (rest : List Tok) (f : Nat), fNeed e ≤ f →
        pFactor f (tokME g e ++ rest) = some (v, rest) := by
  intro e
  induction e with
  | num n =>
    intro v hv rest f hf
    simp only [specEval, Option.some.injEq] at hv
    subst hv
    obtain ⟨k, rfl⟩ : ∃ k, f = k + 1 := ⟨f - 1, by simp [fNeed] at hf; omega⟩
    rfl
  | ref c r =>
    intro v hv rest f hf
    simp only [specEval, Option.some.injEq] at hv
    subst hv
    have h2 := pFactor_tokInt (v := jsNumOr0 (getCellValue g (addrString c r))) rest
    exact pFactor_mono (show 2 ≤ f by simp [fNeed] at hf; omega) h2
  | neg e ih =>
    intro v hv rest f hf
    simp only [specEval] at hv
    cases he : specEval g e with
    | none => rw [he] at hv; exact absurd hv (by simp)
    | some ve =>
      rw [he] at hv
      simp only [Option.some.injEq] at hv
      subst hv
      have hA := ih he (Tok.rparen :: rest) (fNeed e) le_rfl
      have hN := pFactor_neg_tok hA
      have hT := pTerm_of_pFactor hN (by rfl)
      have hE := pExpr_of_pTerm hT (by rfl)
      have hP := pFactor_paren hE
      have hsh : tokME g (ArithExpr.neg e) ++ rest =
          Tok.lparen :: Tok.minus :: (tokME g e ++ (Tok.rparen :: rest)) := by
        simp [tokME]
      rw [hsh]
      exact pFactor_mono (show fNeed e + 4 ≤ f by simp [fNeed] at hf; omega) hP
  | add a b iha ihb =>
    intro v hv rest f hf
    simp only [specEval] at hv
    cases ha : specEval g a with
    | none => rw [ha] at hv; exact absurd hv (by simp)
    | some va =>
      cases hb : specEval g b with
      | none => rw [ha, hb] at hv; exact absurd hv (by simp)
      | some vb =>
        rw [ha, hb] at hv
        simp only [Option.some.injEq] at hv
        subst hv
        have hA := iha ha (Tok.plus :: (tokME g b ++ (Tok.rparen :: rest)))
          (fNeed a) le_rfl
        have hTA := pTerm_of_pFactor hA (by rfl)
        have hB := ihb hb (Tok.rparen :: rest) (fNeed b) le_rfl
        have hTB := pTerm_of_pFactor hB (by rfl)
        have hmax1 : fNeed a + 1 ≤ max (fNeed a + 1) (fNeed b + 1) :=
          le_max_left _ _
        have hmax2 : fNeed b + 1 ≤ max (fNeed a + 1) (fNeed b + 1) :=
          le_max_right _ _
        have hE := pExpr_plus (pTerm_mono hmax1 hTA) (pTerm_mono hmax2 hTB)
          (by rfl)
        have hP := pFactor_paren hE
        have hsh : tokME g (ArithExpr.add a b) ++ rest =
            Tok.lparen ::
              (tokME g a ++ (Tok.plus :: (tokME g b ++ (Tok.rparen :: rest)))) := by
          simp [tokME]
        rw [hsh]
        have hle : max (fNeed a + 1) (fNeed b + 1) + 2 + 1 ≤ f := by
          have := max_le (show fNeed a + 1 ≤ fNeed a + fNeed b + 2 by
              have := fNeed_pos b; omega)
            (show fNeed b + 1 ≤ fNeed a + fNeed b + 2 by
              have := fNeed_pos a; omega)
          simp [fNeed] at hf
          omega
        exact pFactor_mono hle hP
  | sub a b iha ihb =>
    intro v hv rest f hf
    simp only [specEval] at hv
    cases ha : specEval g a with
    | none => rw [ha] at hv; exact absurd hv (by simp)
    | some va =>
      cases hb : specEval g b with
      | none => rw [ha, hb] at hv; exact absurd hv (by simp)
      | some vb =>
        rw [ha, hb] at hv
        simp only [Option.some.injEq] at hv
        subst hv
        have hA := iha ha (Tok.minus :: (tokME g b ++ (Tok.rparen :: rest)))
          (fNeed a) le_rfl
        have hTA := pTerm_of_pFactor hA (by rfl)
        have hB := ihb hb (Tok.rparen :: rest) (fNeed b) le_rfl
        have hTB := pTerm_of_pFactor hB (by rfl)
        have hmax1 : fNeed a + 1 ≤ max (fNeed a + 1) (fNeed b + 1) :=
          le_max_left _ _
        have hmax2 : fNeed b + 1 ≤ max (fNeed a + 1) (fNeed b + 1) :=
          le_max_right _ _
        have hE := pExpr_minus (pTerm_mono hmax1 hTA) (pTerm_mono hmax2 hTB)
          (by rfl)
        have hP := pFactor_paren hE
        have hsh : tokME g (ArithExpr.sub a b) ++ rest =
            Tok.lparen ::
              (tokME g a ++ (Tok.minus :: (tokME g b ++ (Tok.rparen :: rest)))) := by
          simp [tokME]
        rw [hsh]
        have hle : max (fNeed a + 1) (fNeed b + 1) + 2 + 1 ≤ f := by
          have := max_le (show fNeed a + 1 ≤ fNeed a + fNeed b + 2 by
              have := fNeed_pos b; omega)
            (show fNeed b + 1 ≤ fNeed a + fNeed b + 2 by
              have := fNeed_pos a; omega)
          simp [fNeed] at hf
          omega
        exact pFactor_mono hle hP
  | mul a b iha ihb =>
    intro v hv rest f hf
    simp only [specEval] at hv
    cases ha : specEval g a with
    | none => rw [ha] at hv; exact absurd hv (by simp)
    | some va =>
      cases hb : specEval g b with
      | none => rw [ha, hb] at hv; exact absurd hv (by simp)
      | some vb =>
        rw [ha, hb] at hv
        simp only [Option.some.injEq] at hv
        subst hv
        have hA := iha ha (Tok.star :: (tokME g b ++ (Tok.rparen :: rest)))
          (fNeed a) le_rfl
        have hB := ihb hb (Tok.rparen :: rest) (fNeed b) le_rfl
        have hmax1 : fNeed a ≤ max (fNeed a) (fNeed b) := le_max_left _ _
        have hmax2 : fNeed b ≤ max (fNeed a) (fNeed b) := le_max_right _ _
        have hT := pTerm_mulop (pFactor_mono hmax1 hA) (pFactor_mono hmax2 hB)
          (by rfl)
        have hE := pExpr_of_pTerm hT (by rfl)
        have hP := pFactor_paren hE
        have hsh : tokME g (ArithExpr.mul a b) ++ rest =
            Tok.lparen ::
              (tokME g a ++ (Tok.star :: (tokME g b ++ (Tok.rparen :: rest)))) := by
          simp [tokME]
        rw [hsh]
        have hle : max (fNeed a) (fNeed b) + 2 + 1 + 1 ≤ f := by
          have := max_le (show fNeed a ≤ fNeed a + fNeed b by
              have := fNeed_pos b; omega)
            (show fNeed b ≤ fNeed a + fNeed b by
              have := fNeed_pos a; omega)
          simp [fNeed] at hf
          omega
        exact pFactor_mono hle hP
  | div a b iha ihb =>
    intro v hv rest f hf
    simp only [specEval] at hv
    cases ha : specEval g a with
    | none => rw [ha] at hv; exact absurd hv (by simp)
    | some va =>
      cases hb : specEval g b with
      | none => rw [ha, hb] at hv; exact absurd hv (by simp)
      | some vb =>
        rw [ha, hb] at hv
        dsimp only at hv
        by_cases hdvd : vb ≠ 0 ∧ vb ∣ va
        · rw [if_pos hdvd] at hv
          simp only [Option.some.injEq] at hv
          subst hv
          have hA := iha ha (Tok.slash :: (tokME g b ++ (Tok.rparen :: rest)))
            (fNeed a) le_rfl
          have hB := ihb hb (Tok.rparen :: rest) (fNeed b) le_rfl
          have hmax1 : fNeed a ≤ max (fNeed a) (fNeed b) := le_max_left _ _
          have hmax2 : fNeed b ≤ max (fNeed a) (fNeed b) := le_max_right _ _
          have hT := pTerm_divop (pFactor_mono hmax1 hA)
            (pFactor_mono hmax2 hB) hdvd (by rfl)
          have hE := pExpr_of_pTerm hT (by rfl)
          have hP := pFactor_paren hE
          have hsh : tokME g (ArithExpr.div a b) ++ rest =
              Tok.lparen ::
                (tokME g a ++ (Tok.slash :: (tokME g b ++ (Tok.rparen :: rest)))) := by
            simp [tokME]
          rw [hsh]
          have hle : max (fNeed a) (fNeed b) + 2 + 1 + 1 ≤ f := by
            have := max_le (show fNeed a ≤ fNeed a + fNeed b by
                have := fNeed_pos b; omega)
              (show fNeed b ≤ fNeed a + fNeed b by
                have := fNeed_pos a; omega)
            simp [fNeed] at hf
            omega
          exact pFactor_mono hle hP
        · rw [if_neg hdvd] at hv
          exact absurd hv (by simp)

lemma tokME_ne_nil (g : Grid) (e : ArithExpr) : tokME g e ≠ [] := by
  cases e with
  | num n => simp [tokME]
  | ref c r =>
    simp only [tokME, tokInt]
    split <;> simp
  | neg e => simp [tokME]
  | add a b => simp [tokME]
  | sub a b => simp [tokME]
  | mul a b => simp [tokME]
  | div a b => simp [tokME]

lemma fNeed_le_pFuel (g : Grid) (e : ArithExpr) :
    fNeed e + 2 ≤ pFuel (tokME g e) := by
  induction e with
  | num n => simp [fNeed, tokME, pFuel]
  | ref c r =>
    simp only [fNeed, tokME, tokInt, pFuel]
    split <;> simp
  | neg e ih =>
    simp only [fNeed, tokME, pFuel, List.length_cons, List.length_append,
      List.length_singleton] at *
    omega
  | add a b iha ihb =>
    simp only [fNeed, tokME, pFuel, List.length_cons, List.length_append,
      List.length_singleton] at *
    omega
  | sub a b iha ihb =>
    simp only [fNeed, tokME, pFuel, List.length_cons, List.length_append,
      List.length_singleton] at *
    omega
  | mul a b iha ihb =>
    simp only [fNeed, tokME, pFuel, List.length_cons, List.length_append,
      List.length_singleton] at *
    omega
  | div a b iha ihb =>
    simp only [fNeed, tokME, pFuel, List.length_cons, List.length_append,
      List.length_singleton] at *
    omega

/-- Evaluation (`eval`) of the substituted rendering of an expression
computes the specification's value. -/
lemma jsEval_flatSub (g : Grid) (e : ArithExpr) {v : Int}
    (hv : specEval g e = some v) :
    jsEval (flatSub g e) = some (JSValue.num v) := by
  have htok : tokenize (flatSub g e) = some (tokME g e) := by
    have h := tokenize_flatSub g e [] (by intro ch hch; simp at hch)
    rw [List.append_nil] at h
    rw [h]
    have h0 : tokenize [] = some [] := rfl
    rw [h0]
    simp
  unfold jsEval
  rw [htok]
  have hP := pFactor_tokME g e hv [] (fNeed e) le_rfl
  rw [List.append_nil] at hP
  have hT := pTerm_of_pFactor hP (by rfl)
  have hE := pExpr_of_pTerm hT (by rfl)
  have hfin := pExpr_mono
    (show fNeed e + 1 + 1 ≤ pFuel (tokME g e) by
      have := fNeed_le_pFuel g e
      omega) hE
  cases hts : tokME g e with
  | nil => exact absurd hts (tokME_ne_nil g e)
  | cons t ts' =>
    rw [hts] at hfin
    dsimp only
    rw [hfin]

lemma leadsWith_render_sum_false (e : ArithExpr) :
    leadsWith ['S', 'U', 'M', '('] (render e) = false := by
  cases e with
  | num n =>
    obtain ⟨d, ds, hr, hd⟩ := renderNat_head_digit n
    show leadsWith _ (renderNat n) = false
    rw [hr]
    have hS : ('S' : Char) ≠ d := by
      intro hEq
      rw [← hEq] at hd
      exact absurd hd (by decide)
    simp [leadsWith, hS]
  | ref c r =>
    obtain ⟨d, ds, hr, hd⟩ := renderNat_head_digit r
    show leadsWith _ (colChar c :: renderNat r) = false
    rw [hr]
    have hU : ('U' : Char) ≠ d := by
      intro hEq
      rw [← hEq] at hd
      exact absurd hd (by decide)
    simp [leadsWith, hU]
  | neg e => simp [render, leadsWith]
  | add a b => simp [render, leadsWith]
  | sub a b => simp [render, leadsWith]
  | mul a b => simp [render, leadsWith]
  | div a b => simp [render, leadsWith]

/-- The committed evaluation of a rendered arithmetic formula. -/
lemma evaluateFormulaCore_render (g : Grid) (e : ArithExpr)
    (hok : refsOk e = true) {v : Int} (hv : specEval g e = some v) :
    evaluateFormulaCore g ⟨'=' :: render e⟩ = some (JSValue.num v) := by
  unfold evaluateFormulaCore
  dsimp only
  rw [show (String.mk ('=' :: render e)).toList.drop 1 = render e from rfl]
  rw [leadsWith_render_sum_false e]
  simp only [Bool.false_eq_true, if_false]
  have hsub : substRefs g (render e) = flatSub g e := by
    have h := substRefs_render g e [] hok (by intro ch hch; simp at hch)
    rw [List.append_nil] at h
    have h0 : substRefs g [] = [] := rfl
    rw [h0, List.append_nil] at h
    exact h
  rw [hsub]
  exact jsEval_flatSub g e hv

/-- Claim C2: committing an arithmetic (non-SUM) formula whose cell
references are all single-letter-column addresses computes the value of
the expression with every reference replaced by the referenced cell's
display value coerced to a number (non-numeric → 0); in particular,
with `A1` holding the non-numeric text "abc", committing `=A1+5` yields
the computed value 5.  Arbitrary such formulas are quantified as the
renderings of `ArithExpr` syntax trees, whose spec-side value is
`specEval`; the concrete `=A1+5` example is stated verbatim. -/
theorem C2_arith_formula_correct (mode : TranslationMode) (g : Grid)
    (key : String) (e : ArithExpr) (hok : refsOk e = true) {v : Int}
    (hv : specEval g e = some v) :
    updateCell mode g key ⟨'=' :: render e⟩ key =
      some { value := ⟨'=' :: render e⟩,
             formula := some ⟨'=' :: render e⟩,
             computedValue := some (JSValue.num v) } ∧
    getCellValue
      (updateCell manualMode (updateCell manualMode emptyGrid "A1" "abc")
        "B1" "=A1+5") "B1" = "5" := by
  constructor
  · unfold updateCell
    have hb : beginsWithEq ⟨'=' :: render e⟩ = true := rfl
    simp only [hb, if_true, if_pos rfl]
    unfold evaluateFormula
    rw [evaluateFormulaCore_render g e hok hv]
  · decide

/-- Witness for C2: `A1 = "abc"`, then `=(A1+5)` computes 5 (the
rendered form of `A1 + 5`), alongside the verbatim `=A1+5` example. -/
theorem C2_arith_formula_correct_witness :
    updateCell manualMode (updateCell manualMode emptyGrid "A1" "abc") "B1"
        ⟨'=' :: render (ArithExpr.add (ArithExpr.ref 0 1) (ArithExpr.num 5))⟩
        "B1" =
      some { value := ⟨'=' :: render (ArithExpr.add (ArithExpr.ref 0 1)
               (ArithExpr.num 5))⟩,
             formula := some ⟨'=' :: render (ArithExpr.add (ArithExpr.ref 0 1)
               (ArithExpr.num 5))⟩,
             computedValue := some (JSValue.num 5) } ∧
    getCellValue
      (updateCell manualMode (updateCell manualMode emptyGrid "A1" "abc")
        "B1" "=A1+5") "B1" = "5" :=
  C2_arith_formula_correct manualMode
    (updateCell manualMode emptyGrid "A1" "abc") "B1"
    (ArithExpr.add (ArithExpr.ref 0 1) (ArithExpr.num 5))
    (by decide) (by decide)

/-! ## Literal commits and the translation pass (claims about
`updateCell` on non-formula inputs) -/

/-- Counterexample to claim C3 as stated: in the startup "Auto Khmer"
mode (the component's default), the committed literal input `"hello"`
is stored as its dictionary translation, which differs from the raw
input, so the identity round-trip does not hold for every translation
mode. -/
theorem C3_literal_identity_counterexample :
    (updateCell autoKhmerMode emptyGrid "A1" "hello") "A1" =
      some { value := "សួស្តី" } ∧ ("សួស្តី" : String) ≠ "hello" := by
  constructor
  · have htr : translate "hello" Language.km =
        ⟨"សួស្តី", Language.en, 7/10⟩ := by rfl
    unfold updateCell
    have hbe : beginsWithEq "hello" = false := by decide
    simp only [hbe, Bool.false_eq_true, if_false]
    rw [if_pos (show autoKhmerMode.autoTranslate = true ∧
        ¬(jsTrimL ("hello" : String).toList).isEmpty = true by decide)]
    rw [show autoKhmerMode.targetLang = Language.km from rfl, htr]
    rw [if_pos (show (⟨"សួស្តី", Language.en, 7/10⟩ :
        TranslationResult).confidence ≠ 0 ∧
        (⟨"សួស្តី", Language.en, 7/10⟩ :
          TranslationResult).confidence > 1/2 by
      constructor
      · norm_num
      · norm_num)]
    simp
  · decide

/-- Claim C3 (amended): the literal identity round-trip holds for every
grid state and cell whenever the active translation mode does not
auto-translate (such as the "Manual" mode); under an auto-translating
mode the stored value may instead be a confident dictionary translation
of the input, as the counterexample shows. -/
theorem C3_literal_identity_manual (mode : TranslationMode) (g : Grid)
    (key value : String) (hmode : mode.autoTranslate = false)
    (hlit : beginsWithEq value = false) :
    (updateCell mode g key value) key = some { value := value } ∧
    getCellValue (updateCell mode g key value) key = value := by
  have hcell : (updateCell mode g key value) key = some { value := value } := by
    unfold updateCell
    simp only [hlit, Bool.false_eq_true, if_false]
    simp only [if_true]
    rw [if_neg (show ¬(mode.autoTranslate = true ∧
        ¬(jsTrimL value.toList).isEmpty = true) by simp [hmode])]
  refine ⟨hcell, ?_⟩
  unfold getCellValue
  rw [hcell]
  rfl

/-- Witness for the amended C3: committing `"hello"` in Manual mode
stores and displays it verbatim. -/
theorem C3_literal_identity_manual_witness :
    (updateCell manualMode emptyGrid "A1" "hello") "A1" =
      some { value := "hello" } ∧
    getCellValue (updateCell manualMode emptyGrid "A1" "hello") "A1" =
      "hello" :=
  C3_literal_identity_manual manualMode emptyGrid "A1" "hello"
    (by decide) (by decide)

/-- Claim C4: any exception while parsing or evaluating a committed
formula is caught and stored as the error marker `'#ERROR!'` in that
cell's computed value (nothing propagates), and every other cell of the
grid is left unchanged. -/
theorem C4_error_marker_on_exception (mode : TranslationMode) (g : Grid)
    (key : String) (f : String) (hf : beginsWithEq f = true) :
    (evaluateFormulaCore g f = none →
      (updateCell mode g key f) key =
        some { value := f, formula := some f,
               computedValue := some (JSValue.str "#ERROR!") }) ∧
    (∀ k, k ≠ key → (updateCell mode g key f) k = g k) := by
  constructor
  · intro hcore
    unfold updateCell
    simp only [hf, if_true, if_pos rfl]
    unfold evaluateFormula
    rw [hcore]
  · intro k hk
    unfold updateCell
    dsimp only
    rw [if_neg hk]

/-- Witness for C4, at the specification's malformed example
`"=A1:A2)"`: its evaluation throws, the cell shows the error marker and
a neighbouring address is untouched. -/
theorem C4_error_marker_on_exception_witness :
    (evaluateFormulaCore emptyGrid "=A1:A2)" = none ∧
      (updateCell manualMode emptyGrid "B1" "=A1:A2)") "B1" =
        some { value := "=A1:A2)", formula := some "=A1:A2)",
               computedValue := some (JSValue.str "#ERROR!") }) ∧
    (updateCell manualMode emptyGrid "B1" "=A1:A2)") "A1" = emptyGrid "A1" := by
  have h := C4_error_marker_on_exception manualMode emptyGrid "B1" "=A1:A2)"
    (by decide)
  exact ⟨⟨by decide, h.1 (by decide)⟩, h.2 "A1" (by decide)⟩

/-- The example grid after committing `B1 = "=SUM(A1:A2)"`. -/
def exampleGridB1 : Grid := updateCell manualMode exampleGrid "B1" "=SUM(A1:A2)"

/-- Claim C5: a commit modifies only the entry at the committed
address; in particular a formula cell that references the edited cell
keeps its cached computed value until it is itself recommitted.  The
conjuncts state the frame property in general and the specification's
staleness example: with `A1=5, A2=10, B1==SUM(A1:A2)` (B1 shows 15),
editing `A1` to 7 leaves `B1` at 15, and recommitting `B1` updates it
to 17. -/
theorem C5_commit_frame_and_staleness (mode : TranslationMode) (g : Grid)
    (key value : String) :
    (∀ k, k ≠ key → (updateCell mode g key value) k = g k) ∧
    getCellValue (updateCell manualMode exampleGridB1 "A1" "7") "B1" =
      "15" ∧
    getCellValue
      (updateCell manualMode (updateCell manualMode exampleGridB1 "A1" "7")
        "B1" "=SUM(A1:A2)") "B1" = "17" := by
  refine ⟨?_, by decide, by decide⟩
  intro k hk
  unfold updateCell
  dsimp only
  rw [if_neg hk]

/-- Witness for C5: editing `A1` does not touch `B1`, whose cached
value is still the stale 15. -/
theorem C5_commit_frame_and_staleness_witness :
    (updateCell manualMode exampleGridB1 "A1" "7") "B1" =
      exampleGridB1 "B1" ∧
    exampleGridB1 "B1" =
      some { value := "=SUM(A1:A2)", formula := some "=SUM(A1:A2)",
             computedValue := some (JSValue.num 15) } :=
  ⟨(C5_commit_frame_and_staleness manualMode exampleGridB1 "A1" "7").1 "B1"
      (by decide),
    by decide⟩

/-! ## The cell invariant over reachable grids -/

/-- Grid states reachable from the empty grid by commit operations. -/
inductive Reachable : Grid → Prop
  | empty : Reachable emptyGrid
  | step (mode : TranslationMode) (key value : String) {g : Grid} :
      Reachable g → Reachable (updateCell mode g key value)

lemma lookupStr_mem {l : List (String × String)} {k v : String}
    (h : lookupStr l k = some v) : (k, v) ∈ l := by
  induction l with
  | nil => exact absurd h (by simp [lookupStr])
  | cons p rest ih =>
    obtain ⟨k0, v0⟩ := p
    by_cases hk : k0 = k
    · subst hk
      have h2 : some v0 = some v := by simpa [lookupStr] using h
      have h3 : v0 = v := by injection h2
      subst h3
      exact List.mem_cons_self _ _
    · simp only [lookupStr, if_neg hk] at h
      exact List.mem_cons_of_mem _ (ih h)

lemma basicTranslations_no_formula (d t : Language) :
    (basicTranslations d t).all (fun p => !(beginsWithEq p.2)) = true := by
  cases d <;> cases t <;> decide

/-- The translation pass never makes a literal look like a formula. -/
lemma translate_text_no_formula {value : String}
    (h : beginsWithEq value = false) (t : Language) :
    beginsWithEq (translate value t).text = false := by
  unfold translate translateWithFallback
  dsimp only
  split
  · exact h
  · cases hl : lookupStr (basicTranslations (detectLanguage value) t)
        (jsToLower value) with
    | none => exact h
    | some s =>
      have hm := lookupStr_mem hl
      have hall := basicTranslations_no_formula (detectLanguage value) t
      rw [List.all_eq_true] at hall
      have hs := hall _ hm
      simp only [Bool.not_eq_true'] at hs
      exact hs

lemma getCellValue_no_formula {g : Grid} {key : String} {cell : Cell}
    (h : g key = some cell) (hf : cell.formula = none) :
    getCellValue g key = cell.value := by
  unfold getCellValue
  rw [h]
  dsimp only
  rw [hf]
  rfl

/-- A commit leaves every other address exactly as it was. -/
lemma updateCell_ne (mode : TranslationMode) (g : Grid) (key value : String)
    {k : String} (hk : k ≠ key) : updateCell mode g key value k = g k := by
  unfold updateCell
  dsimp only
  rw [if_neg hk]

/-- The cell stored by a formula commit. -/
lemma updateCell_formula_eq (mode : TranslationMode) (g : Grid)
    (key value : String) (hfv : beginsWithEq value = true) :
    (updateCell mode g key value) key =
      some { value := value, formula := some value,
             computedValue := some (evaluateFormula g value) } := by
  unfold updateCell
  simp only [hfv, if_true, if_pos rfl]

/-- The cell stored by a literal commit: some final value that still
does not start with `=`. -/
lemma updateCell_literal_eq (mode : TranslationMode) (g : Grid)
    (key value : String) (hfv : beginsWithEq value = false) :
    ∃ fv, (updateCell mode g key value) key = some { value := fv } ∧
      beginsWithEq fv = false := by
  unfold updateCell
  simp only [hfv, Bool.false_eq_true, if_false, if_true]
  refine ⟨_, rfl, ?_⟩
  split
  · split
    · exact translate_text_no_formula hfv mode.targetLang
    · exact hfv
  · exact hfv

/-- Claim C6: in every grid reachable from the empty grid by commits,
a stored cell carries a formula exactly when its raw value starts with
`=`; a cell without a formula has no cached computed value and displays
its raw value. -/
theorem C6_formula_iff_eq_sign {g : Grid} (hg : Reachable g) :
    ∀ key cell, g key = some cell →
      cell.formula.isSome = beginsWithEq cell.value ∧
      (cell.formula = none → cell.computedValue = none) ∧
      (cell.formula = none → getCellValue g key = cell.value) := by
  induction hg with
  | empty =>
    intro key cell h
    exact absurd h (by simp [emptyGrid])
  | step mode key0 value0 hr ih =>
    intro key cell h
    by_cases hk : key = key0
    · subst hk
      by_cases hfv : beginsWithEq value0 = true
      · rw [updateCell_formula_eq mode _ key value0 hfv] at h
        simp only [Option.some.injEq] at h
        subst h
        exact ⟨by simp [hfv], by simp, by simp⟩
      · simp only [Bool.not_eq_true] at hfv
        obtain ⟨fv, heq, hno⟩ := updateCell_literal_eq mode _ key value0 hfv
        rw [heq] at h
        simp only [Option.some.injEq] at h
        subst h
        exact ⟨by simp [hno], fun _ => rfl,
          fun _ => getCellValue_no_formula heq rfl⟩
    · have hcell := h
      rw [updateCell_ne mode _ key0 value0 hk] at hcell
      obtain ⟨h1, h2, h3⟩ := ih key cell hcell
      exact ⟨h1, h2, fun hnone => getCellValue_no_formula h hnone⟩

/-- Witness for C6: a three-commit grid (two literals and one formula)
satisfies the invariant at a formula address and at a literal address. -/
theorem C6_formula_iff_eq_sign_witness :
    (exampleGridB1 "B1" =
      some { value := "=SUM(A1:A2)", formula := some "=SUM(A1:A2)",
             computedValue := some (JSValue.num 15) } ∧
     (some ("=SUM(A1:A2)" : String)).isSome = beginsWithEq "=SUM(A1:A2)") ∧
    (exampleGridB1 "A1" = some { value := "5" } ∧
     getCellValue exampleGridB1 "A1" = "5") := by
  have hreach : Reachable exampleGridB1 :=
    Reachable.step _ _ _ (Reachable.step _ _ _
      (Reachable.step _ _ _ Reachable.empty))
  have h1 := C6_formula_iff_eq_sign hreach "B1"
    { value := "=SUM(A1:A2)", formula := some "=SUM(A1:A2)",
      computedValue := some (JSValue.num 15) } (by decide)
  have h2 := C6_formula_iff_eq_sign hreach "A1" { value := "5" } (by decide)
  exact ⟨⟨by decide, h1.1⟩, ⟨by decide, h2.2.2 rfl⟩⟩

/-! ## Keyboard navigation (`handleKeyDown`) -/

/-- The four arrow keys. -/
inductive ArrowKey
  | up
  | down
  | left
  | right
deriving DecidableEq, Repr

/-- The arrow-key branch of `handleKeyDown`: ignored while a cell is
under edit; otherwise the column letters and row number are extracted
from the selected address with the `[A-Z]+` and `\d+` matches, and the
neighbour is selected only when the bounds check passes (`row > 1`,
`row < rows`, `colIndex > 0`, `colIndex < cols - 1`).  Up/down rebuild
the address with the matched letter string, left/right with
`String.fromCharCode(65 + colIndex ∓ 1)`. -/
def handleKeyDown (editingCell : Option String) (selectedCell : String)
    (rows cols : Nat) (key : ArrowKey) : String :=
  match editingCell with
  | some _ => selectedCell
  | none =>
    let colL := firstRun isUpperCh selectedCell.toList
    let row := digitsToNat (firstRun isDigitCh selectedCell.toList)
    let colIndex :=
      match colL with
      | ch :: _ => ch.toNat - 65
      | [] => 0
    match key with
    | .up => if 1 < row then ⟨colL ++ renderNat (row - 1)⟩ else selectedCell
    | .down => if row < rows then ⟨colL ++ renderNat (row + 1)⟩ else selectedCell
    | .left =>
      if 0 < colIndex then ⟨colChar (colIndex - 1) :: renderNat row⟩
      else selectedCell
    | .right =>
      if colIndex < cols - 1 then ⟨colChar (colIndex + 1) :: renderNat row⟩
      else selectedCell

/-- The selection column an arrow key should produce (clamped). -/
def arrowCol (c cols : Nat) : ArrowKey → Nat
  | .left => if 0 < c then c - 1 else c
  | .right => if c + 1 < cols then c + 1 else c
  | _ => c

/-- The selection row an arrow key should produce (clamped). -/
def arrowRow (r rows : Nat) : ArrowKey → Nat
  | .up => if 1 < r then r - 1 else r
  | .down => if r < rows then r + 1 else r
  | _ => r

lemma firstRun_upper_addr {c : Nat} (hc : c < 26) (r : Nat) :
    firstRun isUpperCh (addrChars c r) = [colChar c] := by
  obtain ⟨d, ds, hrend, hdig⟩ := renderNat_head_digit r
  unfold firstRun addrChars
  have e1 : (colChar c :: renderNat r).dropWhile (fun ch => !isUpperCh ch) =
      colChar c :: renderNat r := by
    apply dropWhile_cons_of_head
    rw [isUpperCh_colChar hc]
    rfl
  rw [e1, List.takeWhile_cons, isUpperCh_colChar hc]
  simp only [if_true]
  rw [hrend, takeWhile_eq_nil_of_head (not_isUpperCh_of_isDigitCh hdig)]

lemma firstRun_digits_addr {c : Nat} (hc : c < 26) (r : Nat) :
    firstRun isDigitCh (addrChars c r) = renderNat r := by
  obtain ⟨d, ds, hrend, hdig⟩ := renderNat_head_digit r
  unfold firstRun addrChars
  have e1 : (colChar c :: renderNat r).dropWhile (fun ch => !isDigitCh ch) =
      renderNat r := by
    rw [List.dropWhile_cons]
    simp only [not_isDigitCh_colChar hc, Bool.not_false, if_true]
    rw [hrend]
    apply dropWhile_cons_of_head
    rw [hdig]
    rfl
  rw [e1]
  exact List.takeWhile_eq_self_iff.mpr (renderNat_all_digits r)

/-- Claim C7: while no cell is under edit, every arrow key moves the
selection by exactly one cell in its direction when the neighbour is
inside the grid (rows 1..rows, columns 0..cols-1) and leaves the
selection unchanged at the corresponding edge; the selection never
wraps and never leaves the grid. -/
theorem C7_arrow_key_navigation (rows cols : Nat) {c r : Nat}
    (hc : c < cols) (hcols : cols ≤ 26) (hr1 : 1 ≤ r) (hr2 : r ≤ rows)
    (key : ArrowKey) :
    handleKeyDown none (addrString c r) rows cols key =
      addrString (arrowCol c cols key) (arrowRow r rows key) ∧
    arrowCol c cols key < cols ∧
    1 ≤ arrowRow r rows key ∧ arrowRow r rows key ≤ rows := by
  have hc26 : c < 26 := by omega
  have hparse1 : firstRun isUpperCh (addrString c r).toList = [colChar c] :=
    firstRun_upper_addr hc26 r
  have hparse2 : digitsToNat (firstRun isDigitCh (addrString c r).toList) = r := by
    show digitsToNat (firstRun isDigitCh (addrChars c r)) = r
    rw [firstRun_digits_addr hc26 r, digitsToNat_renderNat]
  have hcolIdx : (colChar c).toNat - 65 = c := by
    rw [colChar_toNat hc26]
    omega
  refine ⟨?_, ?_, ?_, ?_⟩
  · unfold handleKeyDown
    rw [hparse1, hparse2]
    dsimp only
    rw [hcolIdx]
    cases key with
    | up =>
      dsimp only [arrowCol, arrowRow]
      by_cases h : 1 < r
      · rw [if_pos h, if_pos h]
        rfl
      · rw [if_neg h, if_neg h]
    | down =>
      dsimp only [arrowCol, arrowRow]
      by_cases h : r < rows
      · rw [if_pos h, if_pos h]
        rfl
      · rw [if_neg h, if_neg h]
    | left =>
      dsimp only [arrowCol, arrowRow]
      by_cases h : 0 < c
      · rw [if_pos h, if_pos h]
        rfl
      · rw [if_neg h, if_neg h]
    | right =>
      dsimp only [arrowCol, arrowRow]
      by_cases h : c + 1 < cols
      · rw [if_pos (show c < cols - 1 by omega), if_pos h]
        rfl
      · rw [if_neg (show ¬(c < cols - 1) by omega), if_neg h]
  · cases key <;> dsimp only [arrowCol] <;> try omega
    · split <;> omega
    · split <;> omega
  · cases key <;> dsimp only [arrowRow] <;> try omega
    · split <;> omega
    · split <;> omega
  · cases key <;> dsimp only [arrowRow] <;> try omega
    · split <;> omega
    · split <;> omega

/-- Witness for C7: on a 20×10 grid with `B2` selected, ArrowUp moves
to `B1`. -/
theorem C7_arrow_key_navigation_witness :
    handleKeyDown none (addrString 1 2) 20 10 ArrowKey.up =
      addrString (arrowCol 1 10 ArrowKey.up) (arrowRow 2 20 ArrowKey.up) ∧
    arrowCol 1 10 ArrowKey.up < 10 ∧
    1 ≤ arrowRow 2 20 ArrowKey.up ∧ arrowRow 2 20 ArrowKey.up ≤ 20 :=
  C7_arrow_key_navigation 20 10 (by decide) (by decide) (by decide)
    (by decide) ArrowKey.up

/-! ## The cell editor key handler (`handleKeyPress`) -/

/-- Keys handled by `handleKeyPress` on the editing input. -/
inductive PressKey
  | enter
  | escape
  | tab
deriving DecidableEq, Repr

/-- The UI state the handler touches. -/
structure SheetState where
  cells : Grid
  selectedCell : String
  editingCell : Option String
  editValue : String

/-- The anchored regex `^([A-Z]+)(\\d+)$` used by the Tab branch. -/
def parseAddrFull (cs : List Char) : Option (Nat × Nat) :=
  let ls := cs.takeWhile isUpperCh
  let rest := cs.drop ls.length
  let ds := rest.takeWhile isDigitCh
  if ls ≠ [] ∧ ds ≠ [] ∧ rest.drop ds.length = [] then
    some
      ((match ls with
        | ch :: _ => ch.toNat - 65
        | [] => 0),
        digitsToNat ds)
  else none

/-- The `handleKeyPress` handler of the editing input: Enter commits
the buffer into the edited cell and closes the editor; Escape closes
the editor and clears the buffer without committing; Tab commits, and
when the next column is inside the grid moves the editor there, seeding
the buffer from the pre-commit cells closure (the React state captured
by the handler). -/
def handleKeyPress (mode : TranslationMode) (st : SheetState)
    (cellKey : String) (cols : Nat) : PressKey → SheetState
  | .enter =>
    { st with cells := updateCell mode st.cells cellKey st.editValue,
              editingCell := none, editValue := "" }
  | .escape => { st with editingCell := none, editValue := "" }
  | .tab =>
    let committed : SheetState :=
      { st with cells := updateCell mode st.cells cellKey st.editValue,
                editingCell := none, editValue := "" }
    match parseAddrFull cellKey.toList with
    | some (colIndex, row) =>
      if colIndex + 1 < cols then
        let nextCell : String := ⟨colChar (colIndex + 1) :: renderNat row⟩
        { committed with
            selectedCell := nextCell, editingCell := some nextCell,
            editValue :=
              match st.cells nextCell with
              | some cell => cell.value
              | none => "" }
      else committed
    | none => committed

/-- Claim C10: pressing Escape while a cell is under edit cancels the
edit (no cell is under edit afterwards, the buffer is cleared) and
leaves the entire cell mapping untouched, whatever was typed. -/
theorem C10_escape_cancels_edit (mode : TranslationMode) (st : SheetState)
    (cellKey : String) (cols : Nat) (hedit : st.editingCell.isSome = true) :
    (handleKeyPress mode st cellKey cols PressKey.escape).editingCell =
      none ∧
    (handleKeyPress mode st cellKey cols PressKey.escape).editValue = "" ∧
    (∀ k, (handleKeyPress mode st cellKey cols PressKey.escape).cells k =
      st.cells k) ∧
    (handleKeyPress mode st cellKey cols PressKey.escape).selectedCell =
      st.selectedCell :=
  ⟨rfl, rfl, fun _ => rfl, rfl⟩

/-- Witness for C10: a concrete editing state whose buffer holds
`"=bad("` is cancelled with the single stored cell intact. -/
theorem C10_escape_cancels_edit_witness :
    (handleKeyPress manualMode
      ⟨exampleGrid, "A1", some "A1", "=bad("⟩ "A1" 10
      PressKey.escape).editingCell = none ∧
    (handleKeyPress manualMode
      ⟨exampleGrid, "A1", some "A1", "=bad("⟩ "A1" 10
      PressKey.escape).editValue = "" ∧
    (handleKeyPress manualMode
      ⟨exampleGrid, "A1", some "A1", "=bad("⟩ "A1" 10
      PressKey.escape).cells "A1" = exampleGrid "A1" ∧
    (handleKeyPress manualMode
      ⟨exampleGrid, "A1", some "A1", "=bad("⟩ "A1" 10
      PressKey.escape).selectedCell = "A1" := by
  have h := C10_escape_cancels_edit manualMode
    ⟨exampleGrid, "A1", some "A1", "=bad("⟩ "A1" 10 (by decide)
  exact ⟨h.1, h.2.1, h.2.2.1 "A1", h.2.2.2⟩

/-! ## Persistence: the startup load effect

`JSON.parse` is a JavaScript builtin; it is modelled here on the
persisted-grid schema the component writes: a JSON object mapping
addresses to cell objects with a string `value`, an optional string
`formula` and an optional `computedValue` that is a string or an
integer.  Strings support the escapes `JSON.stringify` emits for this
data; numbers are the integer fragment (consistent with the `Int`
number model).  JSON text outside this schema is treated as a parse
failure. -/

/-- Skip JSON whitespace (the same four characters as `isWsCh`). -/
def skipWs (cs : List Char) : List Char := cs.dropWhile isWsCh

/-- Body of a JSON string after the opening quote. -/
def parseJStr : List Char → Option (String × List Char)
  | [] => none
  | '"' :: rest => some ("", rest)
  | '\\' :: e :: rest =>
    let esc : Option Char :=
      if e = '"' then some '"'
      else if e = '\\' then some '\\'
      else if e = '/' then some '/'
      else if e = 'n' then some '\n'
      else if e = 't' then some '\t'
      else if e = 'r' then some '\r'
      else none
    match esc with
    | none => none
    | some c =>
      match parseJStr rest with
      | some (s, r) => some (⟨c :: s.toList⟩, r)
      | none => none
  | c :: rest =>
    match parseJStr rest with
    | some (s, r) => some (⟨c :: s.toList⟩, r)
    | none => none

/-- A JSON integer (optionally signed digit run). -/
def parseJInt : List Char → Option (Int × List Char)
  | '-' :: rest =>
    let ds := rest.takeWhile isDigitCh
    if ds = [] then none
    else some (-(digitsToNat ds : Int), rest.drop ds.length)
  | cs =>
    let ds := cs.takeWhile isDigitCh
    if ds = [] then none
    else some ((digitsToNat ds : Int), cs.drop ds.length)

/-- A JSON scalar of the cell schema: a string or an integer. -/
def parseJVal (cs : List Char) : Option ((String ⊕ Int) × List Char) :=
  match cs with
  | '"' :: rest => (parseJStr rest).map (fun p => (Sum.inl p.1, p.2))
  | _ => (parseJInt cs).map (fun p => (Sum.inr p.1, p.2))

/-- Record one `key: value` member of a cell object. -/
def applyField (acc : Option String × Option String × Option JSValue)
    (k : String) (v : String ⊕ Int) :
    Option (Option String × Option String × Option JSValue) :=
  match k, v with
  | "value", Sum.inl s => some (some s, acc.2.1, acc.2.2)
  | "formula", Sum.inl s => some (acc.1, some s, acc.2.2)
  | "computedValue", Sum.inl s => some (acc.1, acc.2.1, some (JSValue.str s))
  | "computedValue", Sum.inr n => some (acc.1, acc.2.1, some (JSValue.num n))
  | _, _ => none

/-- Members of a cell object (after its opening brace), fuel-indexed. -/
def parseCellMembers :
    Nat → (Option String × Option String × Option JSValue) → List Char →
      Option (Cell × List Char)
  | 0, _, _ => none
  | f + 1, acc, cs =>
    match skipWs cs with
    | '"' :: rest =>
      match parseJStr rest with
      | none => none
      | some (k, r1) =>
        match skipWs r1 with
        | ':' :: r3 =>
          match parseJVal (skipWs r3) with
          | none => none
          | some (v, r5) =>
            match applyField acc k v with
            | none => none
            | some acc2 =>
              match skipWs r5 with
              | ',' :: r7 => parseCellMembers f acc2 r7
              | '\x7d' :: r7 =>
                match acc2.1 with
                | some val =>
                  some ({ value := val, formula := acc2.2.1,
                          computedValue := acc2.2.2 }, r7)
                | none => none
              | _ => none
        | _ => none
    | _ => none

/-- A cell object `{"value": ..., ...}`. -/
def parseCellObj (f : Nat) (cs : List Char) : Option (Cell × List Char) :=
  match skipWs cs with
  | '\x7b' :: r => parseCellMembers f (none, none, none) r
  | _ => none

/-- Members of the top-level grid object, fuel-indexed; later duplicate
keys overwrite earlier ones when the list is turned into a grid, as in
`JSON.parse`. -/
def parseGridMembers :
    Nat → List (String × Cell) → List Char →
      Option (List (String × Cell) × List Char)
  | 0, _, _ => none
  | f + 1, acc, cs =>
    match skipWs cs with
    | '"' :: rest =>
      match parseJStr rest with
      | none => none
      | some (k, r1) =>
        match skipWs r1 with
        | ':' :: r3 =>
          match parseCellObj f r3 with
          | none => none
          | some (cell, r5) =>
            match skipWs r5 with
            | ',' :: r7 => parseGridMembers f (acc ++ [(k, cell)]) r7
            | '\x7d' :: r7 => some (acc ++ [(k, cell)], r7)
            | _ => none
        | _ => none
    | _ => none

/-- Model of `JSON.parse` on the persisted-grid schema: the address to
cell-record association in textual order, or `none` for a thrown
`SyntaxError` (or out-of-schema text). -/
def jsonParse (s : String) : Option (List (String × Cell)) :=
  match skipWs s.toList with
  | '\x7b' :: r =>
    match skipWs r with
    | '\x7d' :: r2 => if skipWs r2 = [] then some [] else none
    | _ =>
      match parseGridMembers (s.toList.length + 1) [] r with
      | none => none
      | some (l, r2) => if skipWs r2 = [] then some l else none
  | _ => none

/-- The parsed association list as a grid (later entries win, matching
JavaScript object semantics). -/
def gridOfList (l : List (String × Cell)) : Grid :=
  l.foldl (fun g p => fun k => if k = p.1 then some p.2 else g k) emptyGrid

/-- The startup load effect: `localStorage.getItem` yields `none`
(null) or a string; a falsy (empty) string or a parse failure leaves
the initial `{}` state; a successful parse replaces the state with the
parsed grid verbatim. -/
def loadSavedData (saved : Option String) : Grid :=
  match saved with
  | none => emptyGrid
  | some s =>
    if s.toList.isEmpty then emptyGrid
    else
      match jsonParse s with
      | some l => gridOfList l
      | none => emptyGrid

/-- Claim C8: startup loading of a persisted string that is not valid
JSON (of the persisted schema) is caught and leaves the grid empty
rather than failing, as does an absent entry; a valid persisted state
is loaded verbatim. -/
theorem C8_load_persisted_state (s : String) :
    (loadSavedData none = emptyGrid) ∧
    (jsonParse s = none → loadSavedData (some s) = emptyGrid) ∧
    (∀ l, jsonParse s = some l → loadSavedData (some s) = gridOfList l) := by
  refine ⟨rfl, ?_, ?_⟩
  · intro hfail
    show (if s.toList.isEmpty = true then emptyGrid
      else
        match jsonParse s with
        | some l => gridOfList l
        | none => emptyGrid) = emptyGrid
    by_cases hemp : s.toList.isEmpty = true
    · rw [if_pos hemp]
    · rw [if_neg hemp, hfail]
  · intro l hok
    show (if s.toList.isEmpty = true then emptyGrid
      else
        match jsonParse s with
        | some l => gridOfList l
        | none => emptyGrid) = gridOfList l
    by_cases hemp : s.toList.isEmpty = true
    · exfalso
      have hs : s.toList = [] := by simpa using hemp
      rw [show s = "" from String.ext hs] at hok
      have hnone : jsonParse "" = none := by decide
      rw [hnone] at hok
      exact absurd hok (by simp)
    · rw [if_neg hemp, hok]

/-- Witness for C8: a malformed string loads as the empty grid, and a
well-formed one-cell state loads verbatim. -/
theorem C8_load_persisted_state_witness :
    (jsonParse "\x7bnot json" = none ∧
      loadSavedData (some "\x7bnot json") = emptyGrid) ∧
    (jsonParse "\x7b\"A1\":\x7b\"value\":\"5\"\x7d\x7d" =
        some [("A1", { value := "5" })] ∧
      loadSavedData (some "\x7b\"A1\":\x7b\"value\":\"5\"\x7d\x7d") =
        gridOfList [("A1", { value := "5" })] ∧
      gridOfList [("A1", { value := "5" })] "A1" = some { value := "5" }) := by
  have h1 := (C8_load_persisted_state "\x7bnot json").2.1
  have h2 := (C8_load_persisted_state
    "\x7b\"A1\":\x7b\"value\":\"5\"\x7d\x7d").2.2 [("A1", { value := "5" })]
  exact ⟨⟨by decide, h1 (by decide)⟩,
    ⟨by decide, h2 (by decide), by decide⟩⟩

end Rtc
